import Mathlib

/-!
# CamelotEditor window dock manager

A shallow embedding of `WindowDockManager` from
`CamelotEditor/Source/CmWindowDockManager.cpp`: the tree of Qt splitters owned by
`mCentralSplitter`, the registry `mDockedWindows`, the two tree mutators `dockWindow`
and `undockWindow`, the drop zones of `getDropLocations` and
`getDropLocationAtPosition`, and the drag session of `windowDragged` and
`windowReleased`.

Modelling conventions.

* A `QtEditorWindow*` is a natural number (the identity of the window, also used for
  `getId()`); `nullptr` is `none`.
* The widget hierarchy below `mCentralSplitter` is a finite tree (`Widget`).  A pointer
  to a `QSplitter` inside that hierarchy is the list of child indices leading to it
  from `mCentralSplitter`; the empty list is `mCentralSplitter` itself.
* Qt is an external library.  Its calls follow the Qt documentation:
  `QSplitter::insertWidget(index, widget)` makes the splitter the parent of the widget,
  which takes the widget out of the splitter that held it, and places it at `index`, or
  at the end when `index` is not a valid position; `addWidget` places it after all other
  children; `QWidget::setParent` to a widget that is not a splitter takes the window out
  of the tree; `delete` of a splitter takes it out of its parent.
* `assert` / `CM_ASSERT` / `CM_EXCEPT` are hard failures (`Outcome.failed`), as in a
  build with assertions enabled; `LOGWRN` followed by `return` is `Outcome.warned`.
  Every operation returns the outcome together with the manager state at the moment
  the call ended.
-/

namespace CamelotEditor

/-! ## Data model -/

/-- Qt::Orientation of a splitter. -/
inductive Orientation where
  | Horizontal
  | Vertical
deriving DecidableEq, Repr

/-- The enumeration `WindowDragDropLocation`; the first five values are listed in the
order in which `getDropLocations` pushes the polygons (indices 0 to 4). -/
inductive WindowDragDropLocation where
  | CM_WINDROP_LEFT
  | CM_WINDROP_RIGHT
  | CM_WINDROP_TOP
  | CM_WINDROP_BOTTOM
  | CM_WINDROP_CENTER
  | CM_WINDROP_NONE
deriving DecidableEq, Repr

open WindowDragDropLocation

/-- A widget laid out below `mCentralSplitter`: an editor window (leaf) or a
`QSplitter` with its orientation and its ordered child widgets. -/
inductive Widget where
  | window (id : Nat)
  | splitter (orientation : Orientation) (widgets : List Widget)
deriving Repr

/-- The record `DockedWindowInfo` stored per docked window. -/
structure DockedWindowInfo where
  dockLocation : WindowDragDropLocation
  parentId : Int
deriving DecidableEq, Repr

/-- State of a `WindowDockManager`.  `mCentralOrientation` and `mCentralSplitter` are the
orientation and the child widgets of the root splitter `mCentralSplitter`;
`mDockedWindows` is the `std::map` from window to `DockedWindowInfo`, kept in key order;
`windowFlags` lists the windows whose own `QtEditorWindow::isDocked()` flag is set;
`mLastDraggedWindow` / `mLastDragPosition` are the drag-session members. -/
structure WindowDockManager where
  mCentralOrientation : Orientation
  mCentralSplitter : List Widget
  mDockedWindows : List (Nat × DockedWindowInfo)
  windowFlags : List Nat
  mLastDraggedWindow : Option Nat
  mLastDragPosition : Int × Int
deriving Repr

/-- The failures named by the specification.  `AlreadyDockedError` is the failed
`assert(findIter == mDockedWindows.end())` of `dockWindow`, `NotDockedError` the failed
`CM_ASSERT(findIter != mDockedWindows.end())` of `undockWindow`,
`InternalErrorException` the `CM_EXCEPT` of `undockWindow`; no statement of the source
raises `OrphanedAnchorError`. -/
inductive DockError where
  | AlreadyDockedError
  | NotDockedError
  | OrphanedAnchorError
  | InternalErrorException
deriving DecidableEq, Repr

/-- How a call ended: a normal return, a `LOGWRN` followed by `return`, or a hard
failure. -/
inductive Outcome where
  | returned
  | warned
  | failed (e : DockError)
deriving DecidableEq, Repr

/-- The manager right after the constructor: `new QSplitter(mCentralWidget)` is a
horizontal splitter without children, nothing is docked, no window was dragged. -/
def WindowDockManager.init : WindowDockManager :=
  { mCentralOrientation := Orientation.Horizontal
    mCentralSplitter := []
    mDockedWindows := []
    windowFlags := []
    mLastDraggedWindow := none
    mLastDragPosition := (0, 0) }

/-! ## The widget tree -/

mutual
/-- The windows below a widget, left to right. -/
def Widget.leaves : Widget → List Nat
  | Widget.window w => [w]
  | Widget.splitter _ cs => leavesList cs
/-- The windows below a sequence of sibling widgets, left to right. -/
def leavesList : List Widget → List Nat
  | [] => []
  | c :: cs => c.leaves ++ leavesList cs
end

/-- Prepending one step to a location: the location `(p, i)` seen from a child at
index 0 becomes `(0 :: p, i)` in the parent. -/
def below (loc : List Nat × Nat) : List Nat × Nat := (0 :: loc.1, loc.2)

/-- Moving a location one sibling to the right. -/
def shiftRight (loc : List Nat × Nat) : List Nat × Nat :=
  match loc.1 with
  | [] => ([], loc.2 + 1)
  | j :: q => ((j + 1) :: q, loc.2)

mutual
/-- Location of window `w` inside a widget (for a splitter: relative to it). -/
def Widget.locate (w : Nat) : Widget → Option (List Nat × Nat)
  | Widget.window _ => none
  | Widget.splitter _ cs => locateIn w cs
/-- Location of window `w` below a child sequence: the path of the splitter holding it
(`parentWidget()`) and its index there (`indexOf`), found depth first. -/
def locateIn (w : Nat) : List Widget → Option (List Nat × Nat)
  | [] => none
  | c :: cs =>
    match c with
    | Widget.window v =>
      if v = w then some ([], 0) else (locateIn w cs).map shiftRight
    | Widget.splitter _ _ =>
      match c.locate w with
      | some loc => some (below loc)
      | none => (locateIn w cs).map shiftRight
end

/-- The splitter reached from a splitter `(o, cs)` along a path of child indices. -/
def splitterAt : Orientation → List Widget → List Nat → Option (Orientation × List Widget)
  | o, cs, [] => some (o, cs)
  | _, cs, i :: p =>
    match cs[i]? with
    | some (Widget.splitter o1 cs1) => splitterAt o1 cs1 p
    | _ => none

/-- Replaces the child sequence `ch` of the splitter at path `p` by `f ch`; every other
splitter keeps its orientation and its child sequence. -/
def modifyAt (f : List Widget → List Widget) : List Widget → List Nat → List Widget
  | cs, [] => f cs
  | cs, i :: p =>
    match cs[i]? with
    | some (Widget.splitter o1 cs1) => cs.set i (Widget.splitter o1 (modifyAt f cs1 p))
    | _ => cs

/-- The list operation behind `QSplitter::insertWidget(index, widget)` for a widget that
is not yet in the splitter: insertion at `index`, or at the end when `index` is not a
valid position. -/
def insertWidget (index : Nat) (widget : Widget) (list : List Widget) : List Widget :=
  if index ≤ list.length then list.take index ++ widget :: list.drop index
  else list ++ [widget]

/-- Path of a splitter after the leaf at location `(q, i)` has left the tree: an index
on the path drops by one where the removed leaf was an earlier sibling. -/
def rebase : List Nat → Nat → List Nat → List Nat
  | [], i, j :: p => if i < j then (j - 1) :: p else j :: p
  | k :: q, i, j :: p => if k = j then j :: rebase q i p else j :: p
  | _, _, [] => []

/-- Effect of `QWidget::setParent` on the tree when window `w` is given a new parent:
`w` leaves the child sequence of the splitter that held it (nothing changes when no
splitter held it).  The second component re-bases the path `p` of a splitter that the
caller keeps a pointer to. -/
def detach (w : Nat) (cs : List Widget) (p : List Nat) : List Widget × List Nat :=
  match locateIn w cs with
  | none => (cs, p)
  | some (q, i) => (modifyAt (fun ch => ch.eraseIdx i) cs q, rebase q i p)

/-! ## The registry `mDockedWindows` -/

/-- The assignment `mDockedWindows[k] = v` of `std::map`. -/
def mapAssign (k : Nat) (v : DockedWindowInfo) :
    List (Nat × DockedWindowInfo) → List (Nat × DockedWindowInfo)
  | [] => [(k, v)]
  | e :: m =>
    if k < e.1 then (k, v) :: e :: m
    else if k = e.1 then (k, v) :: m
    else e :: mapAssign k v m

/-- The call `mDockedWindows.erase(find(k))`. -/
def mapErase (k : Nat) (m : List (Nat × DockedWindowInfo)) : List (Nat × DockedWindowInfo) :=
  m.filter (fun e => e.1 != k)

/-- The windows registered in `mDockedWindows`. -/
def WindowDockManager.registered (s : WindowDockManager) : List Nat :=
  s.mDockedWindows.map Prod.fst

/-- Translation of `WindowDockManager::isDocked`. -/
def WindowDockManager.isDocked (s : WindowDockManager) (window : Nat) : Bool :=
  (s.mDockedWindows.lookup window).isSome

/-- Translation of `WindowDockManager::getDockLocation`; `none` is the failed `assert`. -/
def WindowDockManager.getDockLocation (s : WindowDockManager) (window : Nat) :
    Option WindowDragDropLocation :=
  (s.mDockedWindows.lookup window).map DockedWindowInfo.dockLocation

/-- Translation of `WindowDockManager::getDockParentId`; `none` is the failed `assert`. -/
def WindowDockManager.getDockParentId (s : WindowDockManager) (window : Nat) : Option Int :=
  (s.mDockedWindows.lookup window).map DockedWindowInfo.parentId

/-- Modelled from the spec: `QtEditorWindow::dock()`, which is not part of the sources
at hand; the window has a boolean docked state and `dock()` sets it. -/
def windowDock (w : Nat) (flags : List Nat) : List Nat :=
  if w ∈ flags then flags else w :: flags

/-- Modelled from the spec: `QtEditorWindow::undock()`, which is not part of the sources
at hand; it clears the boolean docked state of the window. -/
def windowUndock (w : Nat) (flags : List Nat) : List Nat :=
  flags.filter (fun v => v != w)

/-! ## dockWindow -/

/-- Whether a child widget is the window `w`. -/
def isWindow (w : Nat) : Widget → Bool
  | Widget.window v => v == w
  | Widget.splitter _ _ => false

/-- The list operation behind `QSplitter::addWidget(window)`: the window is placed after
all other children; a window that is already a child is moved to the end. -/
def addWindow (w : Nat) (list : List Widget) : List Widget :=
  list.filter (fun c => !isWindow w c) ++ [Widget.window w]

/-- The value of `parentSplitter->orientation()` for the splitter at path `p`. -/
def orientationAt (o : Orientation) (cs : List Widget) (p : List Nat) : Orientation :=
  match splitterAt o cs p with
  | some (o1, _) => o1
  | none => o

/-- The part of `dockWindow` that edits the tree when `dockAtWidget` sits at index
`idxDockAt` of the splitter `parentSplitter` (source lines 208 to 261); here
`dockAtPosition` is one of left, right, top, bottom.  Each `insertWidget` / `addWidget`
re-parents the widget it receives (`detach`), in the order of the source; the child
sequence of `newSplitter` is built by `addWindow`. -/
def dockAt (o : Orientation) (cs : List Widget) (parentSplitter : List Nat) (idxDockAt : Nat)
    (windowToDock dockAtWidget : Nat) (dockAtPosition : WindowDragDropLocation) : List Widget :=
  if orientationAt o cs parentSplitter = Orientation.Horizontal then
    if dockAtPosition = CM_WINDROP_LEFT then
      let r := detach windowToDock cs parentSplitter
      modifyAt (insertWidget idxDockAt (Widget.window windowToDock)) r.1 r.2
    else if dockAtPosition = CM_WINDROP_RIGHT then
      let r := detach windowToDock cs parentSplitter
      modifyAt (insertWidget (idxDockAt + 1) (Widget.window windowToDock)) r.1 r.2
    else if dockAtPosition = CM_WINDROP_TOP then
      let r1 := detach windowToDock cs parentSplitter
      let r2 := detach dockAtWidget r1.1 r1.2
      modifyAt
        (insertWidget idxDockAt
          (Widget.splitter Orientation.Vertical
            (addWindow dockAtWidget (addWindow windowToDock []))))
        r2.1 r2.2
    else
      let r1 := detach dockAtWidget cs parentSplitter
      let r2 := detach windowToDock r1.1 r1.2
      modifyAt
        (insertWidget idxDockAt
          (Widget.splitter Orientation.Vertical
            (addWindow windowToDock (addWindow dockAtWidget []))))
        r2.1 r2.2
  else
    if dockAtPosition = CM_WINDROP_TOP then
      let r := detach windowToDock cs parentSplitter
      modifyAt (insertWidget idxDockAt (Widget.window windowToDock)) r.1 r.2
    else if dockAtPosition = CM_WINDROP_BOTTOM then
      let r := detach windowToDock cs parentSplitter
      modifyAt (insertWidget (idxDockAt + 1) (Widget.window windowToDock)) r.1 r.2
    else if dockAtPosition = CM_WINDROP_LEFT then
      let r1 := detach windowToDock cs parentSplitter
      let r2 := detach dockAtWidget r1.1 r1.2
      modifyAt
        (insertWidget idxDockAt
          (Widget.splitter Orientation.Horizontal
            (addWindow dockAtWidget (addWindow windowToDock []))))
        r2.1 r2.2
    else
      let r1 := detach dockAtWidget cs parentSplitter
      let r2 := detach windowToDock r1.1 r1.2
      modifyAt
        (insertWidget idxDockAt
          (Widget.splitter Orientation.Horizontal
            (addWindow windowToDock (addWindow dockAtWidget []))))
        r2.1 r2.2

/-- Translation of `WindowDockManager::dockWindow`.  The anchor `dockAtWidget` has a
parent splitter exactly when it is a leaf of the tree. -/
def dockWindow (s : WindowDockManager) (windowToDock : Nat) (dockAtWidget : Option Nat)
    (dockAtPosition : WindowDragDropLocation) : Outcome × WindowDockManager :=
  if s.isDocked windowToDock then (Outcome.failed DockError.AlreadyDockedError, s)
  else if dockAtPosition = CM_WINDROP_NONE ∨ dockAtPosition = CM_WINDROP_CENTER then
    (Outcome.returned, s)
  else
    match dockAtWidget with
    | none =>
      (Outcome.returned,
        { s with
          mCentralSplitter :=
            (detach windowToDock s.mCentralSplitter []).1 ++ [Widget.window windowToDock]
          windowFlags := windowDock windowToDock s.windowFlags
          mDockedWindows :=
            mapAssign windowToDock { dockLocation := dockAtPosition, parentId := -1 }
              s.mDockedWindows })
    | some anchor =>
      match locateIn anchor s.mCentralSplitter with
      | none => (Outcome.warned, s)
      | some (parentSplitter, idxDockAt) =>
        (Outcome.returned,
          { s with
            mCentralSplitter :=
              dockAt s.mCentralOrientation s.mCentralSplitter parentSplitter idxDockAt
                windowToDock anchor dockAtPosition
            windowFlags := windowDock windowToDock s.windowFlags
            mDockedWindows :=
              mapAssign windowToDock { dockLocation := dockAtPosition, parentId := anchor }
                s.mDockedWindows })

/-! ## undockWindow -/

/-- The collapse step of `undockWindow` (source lines 291 to 306) for the splitter
`parentSplitter` the window was taken from.  In a tree every splitter other than
`mCentralSplitter` is the child of a splitter, so the `CM_EXCEPT` branch of the source
cannot be taken and `topParentSplitter` is the path without its last index, which is
`splitterIdx`.  The three edits are those of
`topParentSplitter->insertWidget(splitterIdx, remainingWidget)`, which empties
`parentSplitter` (`cs1`) and puts the widget in front of it (`cs2`), and of
`delete parentSplitter`, which by then sits at `splitterIdx + 1`. -/
def collapse (o : Orientation) (cs : List Widget) (parentSplitter : List Nat) : List Widget :=
  if parentSplitter ≠ [] then
    match splitterAt o cs parentSplitter with
    | some (_, [remainingWidget]) =>
      let topParentSplitter := parentSplitter.dropLast
      let splitterIdx := parentSplitter.getLast?.getD 0
      let cs1 := modifyAt (fun _ => []) cs parentSplitter
      let cs2 := modifyAt (insertWidget splitterIdx remainingWidget) cs1 topParentSplitter
      modifyAt (fun ch => ch.eraseIdx (splitterIdx + 1)) cs2 topParentSplitter
    | _ => cs
  else cs

/-- Translation of `WindowDockManager::undockWindow`. -/
def undockWindow (s : WindowDockManager) (windowToUndock : Nat) : Outcome × WindowDockManager :=
  match locateIn windowToUndock s.mCentralSplitter with
  | none => (Outcome.warned, s)
  | some (parentSplitter, _) =>
    let r := detach windowToUndock s.mCentralSplitter parentSplitter
    let s1 : WindowDockManager :=
      { s with
        mCentralSplitter := collapse s.mCentralOrientation r.1 r.2
        windowFlags := windowUndock windowToUndock s.windowFlags }
    if s.isDocked windowToUndock then
      (Outcome.returned, { s1 with mDockedWindows := mapErase windowToUndock s.mDockedWindows })
    else (Outcome.failed DockError.NotDockedError, s1)

/-- The tree after `undockWindow` took the window at index `i` out of the splitter at
path `p`. -/
def undockTree (o : Orientation) (cs : List Widget) (p : List Nat) (i : Nat) : List Widget :=
  collapse o (modifyAt (fun ch => ch.eraseIdx i) cs p) p

/-! ## Vocabulary of the specification -/

/-- The zone's natural axis: left and right split horizontally, top and bottom
vertically. -/
def naturalAxis : WindowDragDropLocation → Orientation
  | CM_WINDROP_LEFT => Orientation.Horizontal
  | CM_WINDROP_RIGHT => Orientation.Horizontal
  | _ => Orientation.Vertical

/-- Whether the zone puts the docked window before the anchor (left, top) rather than
after it (right, bottom). -/
def placesBefore : WindowDragDropLocation → Bool
  | CM_WINDROP_LEFT => true
  | CM_WINDROP_TOP => true
  | _ => false

/-- The four zones in which `dockWindow` places a window. -/
def isEdgeZone : WindowDragDropLocation → Bool
  | CM_WINDROP_CENTER => false
  | CM_WINDROP_NONE => false
  | _ => true

/-- The sequence `after` is the sequence `before` with `t` inserted at one position. -/
def InsertedInto (t : Nat) (before after : List Nat) : Prop :=
  ∃ A B, before = A ++ B ∧ after = A ++ t :: B

/-! ## The scenarios of the specification (windows A = 1, B = 2, C = 3) -/

/-- Scenario 1: window A docked into the empty root. -/
def scenario1 : WindowDockManager :=
  { mCentralOrientation := Orientation.Horizontal
    mCentralSplitter := [Widget.window 1]
    mDockedWindows := [(1, { dockLocation := CM_WINDROP_LEFT, parentId := -1 })]
    windowFlags := [1]
    mLastDraggedWindow := none
    mLastDragPosition := (0, 0) }

/-- Scenario 2: window B docked to the right of A. -/
def scenario2 : WindowDockManager :=
  { mCentralOrientation := Orientation.Horizontal
    mCentralSplitter := [Widget.window 1, Widget.window 2]
    mDockedWindows :=
      [(1, { dockLocation := CM_WINDROP_LEFT, parentId := -1 }),
       (2, { dockLocation := CM_WINDROP_RIGHT, parentId := 1 })]
    windowFlags := [2, 1]
    mLastDraggedWindow := none
    mLastDragPosition := (0, 0) }

/-- Scenario 3: window C docked on top of A, inside a new vertical splitter. -/
def scenario3 : WindowDockManager :=
  { mCentralOrientation := Orientation.Horizontal
    mCentralSplitter :=
      [Widget.splitter Orientation.Vertical [Widget.window 3, Widget.window 1], Widget.window 2]
    mDockedWindows :=
      [(1, { dockLocation := CM_WINDROP_LEFT, parentId := -1 }),
       (2, { dockLocation := CM_WINDROP_RIGHT, parentId := 1 }),
       (3, { dockLocation := CM_WINDROP_TOP, parentId := 1 })]
    windowFlags := [3, 2, 1]
    mLastDraggedWindow := none
    mLastDragPosition := (0, 0) }

/-! ## Invariants and reachable states -/

mutual
/-- No splitter inside the widget has fewer than two children. -/
def Widget.noDegenerate : Widget → Bool
  | Widget.window _ => true
  | Widget.splitter _ cs => decide (2 ≤ cs.length) && noDegenerateList cs
/-- No splitter below the sibling sequence has fewer than two children. -/
def noDegenerateList : List Widget → Bool
  | [] => true
  | c :: cs => c.noDegenerate && noDegenerateList cs
end

/-- Invariant I1: every splitter other than `mCentralSplitter` has at least two
children. -/
def I1 (s : WindowDockManager) : Prop := noDegenerateList s.mCentralSplitter = true

/-- Invariant I2: the registered windows are exactly the window leaves below
`mCentralSplitter`, and no window is a leaf twice. -/
def I2 (s : WindowDockManager) : Prop :=
  (∀ w ∈ s.registered, w ∈ leavesList s.mCentralSplitter) ∧
  (∀ w ∈ leavesList s.mCentralSplitter, w ∈ s.registered) ∧
  (leavesList s.mCentralSplitter).Nodup

instance (s : WindowDockManager) : Decidable (I1 s) := by
  unfold I1; infer_instance

instance (s : WindowDockManager) : Decidable (I2 s) := by
  unfold I2; infer_instance

/-- The states of the manager that some sequence of `dockWindow` and `undockWindow`
calls produces from the freshly constructed manager; a call that fails or does nothing
contributes the state it ended in. -/
inductive Reachable : WindowDockManager → Prop where
  | init : Reachable WindowDockManager.init
  | dock (s : WindowDockManager) (windowToDock : Nat) (dockAtWidget : Option Nat)
      (dockAtPosition : WindowDragDropLocation) :
      Reachable s → Reachable (dockWindow s windowToDock dockAtWidget dockAtPosition).2
  | undock (s : WindowDockManager) (windowToUndock : Nat) :
      Reachable s → Reachable (undockWindow s windowToUndock).2

/-! ## Geometry: points, rectangles and polygons of Qt

The functions of this section follow the Qt sources for `QPoint`, `QRect` and `QPolygon`.
The geometry of the widgets is far from the limits of `int`, so the operations on
rectangles and polygons are taken over the integers.  A pointer position is an argument
of `windowDragged` and `windowReleased`, so the arithmetic on it (`operator-` of `QPoint`
and `manhattanLength`) is the arithmetic of `int`: 32 bits, two's complement, a result
out of range wraps. -/

/-- The value of type `int` that holds an arithmetic result: the result modulo `2^32`,
in the range from `-2^31` to `2^31 - 1`. -/
def wrapInt (v : Int) : Int := (v + 2147483648) % 4294967296 - 2147483648

/-- The template `qAbs` at type `int`: `t >= 0 ? t : -t`. -/
def qAbs (t : Int) : Int := if t ≥ 0 then t else wrapInt (-t)

/-- The call `QPoint::manhattanLength`: `qAbs(x()) + qAbs(y())`, a sum of two `int`. -/
def manhattanLength (p : Int × Int) : Int := wrapInt (qAbs p.1 + qAbs p.2)

/-- The `operator-` of two `QPoint`s: `QPoint(p1.xp - p2.xp, p1.yp - p2.yp)`, each
coordinate a difference of two `int`. -/
def pointMinus (p q : Int × Int) : Int × Int := (wrapInt (p.1 - q.1), wrapInt (p.2 - q.2))

/-- The translation that `mapFromGlobal` applies to a point: the difference to the
position of the widget. -/
def pointSub (p q : Int × Int) : Int × Int := (p.1 - q.1, p.2 - q.2)

/-- A `QRect`, stored as Qt stores it: left, top, right and bottom coordinate, all
inclusive. -/
structure QRect where
  x1 : Int
  y1 : Int
  x2 : Int
  y2 : Int
deriving DecidableEq, Repr

/-- The constructor `QRect(x, y, width, height)`, also `QRect(topLeft, size)`. -/
def QRect.ofSize (x y width height : Int) : QRect :=
  { x1 := x, y1 := y, x2 := x + width - 1, y2 := y + height - 1 }

/-- The corner `QRect::topLeft`. -/
def QRect.topLeft (r : QRect) : Int × Int := (r.x1, r.y1)

/-- The corner `QRect::bottomLeft`. -/
def QRect.bottomLeft (r : QRect) : Int × Int := (r.x1, r.y2)

/-- The corner `QRect::topRight`. -/
def QRect.topRight (r : QRect) : Int × Int := (r.x2, r.y1)

/-- The corner `QRect::bottomRight`. -/
def QRect.bottomRight (r : QRect) : Int × Int := (r.x2, r.y2)

/-- The test `QRect::contains(point)` with `proper = false`: edges count as inside. -/
def QRect.contains (r : QRect) (p : Int × Int) : Bool :=
  let l := if r.x2 < r.x1 - 1 then r.x2 else r.x1
  let rr := if r.x2 < r.x1 - 1 then r.x1 else r.x2
  if p.1 < l ∨ p.1 > rr then false
  else
    let t := if r.y2 < r.y1 - 1 then r.y2 else r.y1
    let b := if r.y2 < r.y1 - 1 then r.y1 else r.y2
    if p.2 < t ∨ p.2 > b then false else true

/-- The helper `qt_polygon_isect_line` of `QPolygon::containsPoint`: the winding number
after the edge from `p1` to `p2` has been looked at.  A horizontal edge is ignored; an
edge counts when the row of `pos` meets its span `[y1, y2)` and the edge is at or left
of `pos` on that row.  The source computes the crossing
`x = x1 + ((x2 - x1) / (y2 - y1)) * (y - y1)` in `double` and tests `x <= pos.x()`; here
the same comparison is made exactly, multiplied by the positive `y2 - y1`.  Every edge
of a polygon of `getDropLocations` is horizontal, vertical or of slope 1 or -1, for
which the `double` computation of the source is exact as well.  The test
`qFuzzyCompare(y1, y2)` of the source is equality for coordinates of type `int`. -/
def qt_polygon_isect_line (p1 p2 pos : Int × Int) (winding : Int) : Int :=
  if p1.2 = p2.2 then winding
  else if p2.2 < p1.2 then
    if pos.2 ≥ p2.2 ∧ pos.2 < p1.2 then
      if (p1.1 - p2.1) * (pos.2 - p2.2) ≤ (pos.1 - p2.1) * (p1.2 - p2.2) then winding + (-1)
      else winding
    else winding
  else
    if pos.2 ≥ p1.2 ∧ pos.2 < p2.2 then
      if (p2.1 - p1.1) * (pos.2 - p1.2) ≤ (pos.1 - p1.1) * (p2.2 - p1.2) then winding + 1
      else winding
    else winding

/-- The loop of `QPolygon::containsPoint` over the points after the first: the winding
number and the last point seen. -/
def isectPath (pos : Int × Int) : Int × Int → List (Int × Int) → Int → Int × (Int × Int)
  | last_pt, [], winding => (winding, last_pt)
  | last_pt, e :: rest, winding =>
    isectPath pos e rest (qt_polygon_isect_line last_pt e pos winding)

/-- The test `QPolygon::containsPoint(pt, Qt::OddEvenFill)`. -/
def containsPoint (polygon : List (Int × Int)) (pt : Int × Int) : Bool :=
  match polygon with
  | [] => false
  | last_start :: rest =>
    let r := isectPath pt last_start rest 0
    let winding_number :=
      if r.2 ≠ last_start then qt_polygon_isect_line r.2 last_start pt r.1 else r.1
    decide (winding_number.tmod 2 ≠ 0)

/-! ## The screen

What the manager reads from the widgets while it handles a pointer event. -/

/-- Position and size of a widget: `mapToGlobal(QPoint(0, 0))`, `width()`, `height()`. -/
structure WidgetGeometry where
  globalPos : Int × Int
  width : Int
  height : Int
deriving DecidableEq, Repr

/-- The widgets the manager reads: every editor window, the content widget of every
editor window (`getContentWidget()`), and `mCentralWidget`. -/
structure Screen where
  window : Nat → WidgetGeometry
  contentWidget : Nat → WidgetGeometry
  mCentralWidget : WidgetGeometry

/-- The call `mCentralWidget->mapFromGlobal(p)`. -/
def Screen.mapFromGlobal (g : Screen) (p : Int × Int) : Int × Int :=
  pointSub p g.mCentralWidget.globalPos

/-! ## Drop zones -/

/-- Translation of `WindowDockManager::getDropLocations`: the polygons left, right, top,
bottom, center of a widget, in the coordinates of `mCentralWidget`. -/
def getDropLocations (g : Screen) (widget : WidgetGeometry) : List (List (Int × Int)) :=
  let topLeft := g.mapFromGlobal widget.globalPos
  let largeRect := QRect.ofSize (topLeft.1 + 1) (topLeft.2 + 1) (widget.width - 2)
    (widget.height - 2)
  let sizeOffset :=
    if widget.width < widget.height then widget.width.tdiv 10 else widget.height.tdiv 10
  let smallRect := QRect.ofSize (topLeft.1 + sizeOffset) (topLeft.2 + sizeOffset)
    (widget.width - 2 * sizeOffset) (widget.height - 2 * sizeOffset)
  let left := [largeRect.topLeft, largeRect.bottomLeft, smallRect.bottomLeft, smallRect.topLeft]
  let right :=
    [largeRect.topRight, largeRect.bottomRight, smallRect.bottomRight, smallRect.topRight]
  let top := [largeRect.topLeft, largeRect.topRight, smallRect.topRight, smallRect.topLeft]
  let bottom :=
    [largeRect.bottomRight, largeRect.bottomLeft, smallRect.bottomLeft, smallRect.bottomRight]
  let center :=
    [smallRect.topLeft, smallRect.topRight, smallRect.bottomRight, smallRect.bottomLeft]
  [left, right, top, bottom, center]

/-- Modelled from the spec: the cast `(WindowDragDropLocation)idx`; the header that
declares the enumeration is missing, the zones are enumerated in the order left, right,
top, bottom, center. -/
def locationOfIndex : Nat → WindowDragDropLocation
  | 0 => CM_WINDROP_LEFT
  | 1 => CM_WINDROP_RIGHT
  | 2 => CM_WINDROP_TOP
  | 3 => CM_WINDROP_BOTTOM
  | 4 => CM_WINDROP_CENTER
  | _ => CM_WINDROP_NONE

/-- The loop of `getDropLocationAtPosition`: the index of the first polygon that
contains the position, or `CM_WINDROP_NONE`. -/
def firstContaining (localPos : Int × Int) :
    List (List (Int × Int)) → Nat → WindowDragDropLocation
  | [], _ => CM_WINDROP_NONE
  | polygon :: rest, idx =>
    if containsPoint polygon localPos = true then locationOfIndex idx
    else firstContaining localPos rest (idx + 1)

/-- Translation of `WindowDockManager::getDropLocationAtPosition`. -/
def getDropLocationAtPosition (g : Screen) (widget : WidgetGeometry) (globalPos : Int × Int) :
    WindowDragDropLocation :=
  firstContaining (g.mapFromGlobal globalPos) (getDropLocations g widget) 0

/-! ## The drag session -/

/-- Translation of `WindowDockManager::getDockedWindowAtPosition`: the first window of
`mDockedWindows`, in the order of the map, whose rectangle contains the position. -/
def getDockedWindowAtPosition (g : Screen) (s : WindowDockManager) (globalPos : Int × Int) :
    Option Nat :=
  (s.mDockedWindows.find? (fun e =>
    (QRect.ofSize (g.window e.1).globalPos.1 (g.window e.1).globalPos.2 (g.window e.1).width
      (g.window e.1).height).contains globalPos)).map Prod.fst

/-- Translation of `WindowDockManager::isPositionInDockArea`. -/
def isPositionInDockArea (g : Screen) (globalPos : Int × Int) : Bool :=
  (QRect.ofSize g.mCentralWidget.globalPos.1 g.mCentralWidget.globalPos.2
    g.mCentralWidget.width g.mCentralWidget.height).contains globalPos

/-- Modelled from the spec: `QtEditorWindow::isDocked()`, which is not part of the
sources at hand; it reads the boolean docked state that `dock()` sets and `undock()`
clears. -/
def windowIsDocked (s : WindowDockManager) (window : Nat) : Bool :=
  decide (window ∈ s.windowFlags)

/-- The first statement of `windowDragged` and of `windowReleased` after the overlay
calls: a window other than the last dragged one starts a session at `mousePos`. -/
def trackWindow (s : WindowDockManager) (window : Nat) (mousePos : Int × Int) :
    WindowDockManager :=
  if s.mLastDraggedWindow ≠ some window then
    { s with mLastDragPosition := mousePos, mLastDraggedWindow := some window }
  else s

/-- Translation of `WindowDockManager::windowDragged`.  The branch of a window that is
not docked only calls `mDockOverlayWidget`, which draws the overlay and does not touch
the manager, so the screen is not an argument. -/
def windowDragged (s : WindowDockManager) (window : Nat) (mousePos : Int × Int) :
    Outcome × WindowDockManager :=
  let s1 := trackWindow s window mousePos
  if windowIsDocked s1 window = false then (Outcome.returned, s1)
  else
    let diff := pointMinus s1.mLastDragPosition mousePos
    if manhattanLength diff > 4 then undockWindow s1 window
    else (Outcome.returned, s1)

/-- Translation of `WindowDockManager::windowReleased`. -/
def windowReleased (g : Screen) (s : WindowDockManager) (window : Nat) (mousePos : Int × Int) :
    Outcome × WindowDockManager :=
  let s1 := trackWindow s window mousePos
  let diff := pointMinus s1.mLastDragPosition mousePos
  let wasDragged := decide (manhattanLength diff > 4)
  if wasDragged = true ∧ windowIsDocked s1 window = false then
    match getDockedWindowAtPosition g s1 mousePos with
    | some windowUnderCursor =>
      dockWindow s1 window (some windowUnderCursor)
        (getDropLocationAtPosition g (g.contentWidget windowUnderCursor) mousePos)
    | none =>
      if isPositionInDockArea g mousePos = true then
        dockWindow s1 window none (getDropLocationAtPosition g g.mCentralWidget mousePos)
      else (Outcome.returned, s1)
  else (Outcome.returned, s1)

/-- Translation of `WindowDockManager::windowClosed`. -/
def windowClosed (s : WindowDockManager) (window : Nat) : Outcome × WindowDockManager :=
  if windowIsDocked s window = true then undockWindow s window else (Outcome.returned, s)

/-! ## Vocabulary of the drop zones -/

/-- The margin of the specification, `floor(min(width, height) * 0.10)`, in integer
arithmetic. -/
def margin (widget : WidgetGeometry) : Int := min widget.width widget.height / 10

/-- The rectangle of a widget in the coordinates of `mCentralWidget`. -/
def targetRect (g : Screen) (widget : WidgetGeometry) : QRect :=
  QRect.ofSize (g.mapFromGlobal widget.globalPos).1 (g.mapFromGlobal widget.globalPos).2
    widget.width widget.height

/-- The rectangle of a widget shrunk by the margin on all four sides. -/
def insetRect (g : Screen) (widget : WidgetGeometry) : QRect :=
  QRect.ofSize ((g.mapFromGlobal widget.globalPos).1 + margin widget)
    ((g.mapFromGlobal widget.globalPos).2 + margin widget)
    (widget.width - 2 * margin widget) (widget.height - 2 * margin widget)

/-- A screen with `mCentralWidget` at the origin in which every window and every content
widget is a square of side 100 at the origin. -/
def squareScreen : Screen :=
  { window := fun _ => { globalPos := (0, 0), width := 100, height := 100 }
    contentWidget := fun _ => { globalPos := (0, 0), width := 100, height := 100 }
    mCentralWidget := { globalPos := (0, 0), width := 400, height := 300 } }

/-- The five polygons that `getDropLocations` builds for a widget whose top left corner
is `(X, Y)` in the coordinates of `mCentralWidget`, of width `W` and height `H`, when
`sizeOffset` is `m`: left, right, top, bottom, center. -/
def zonePolygons (X Y W H m : Int) : List (List (Int × Int)) :=
  [[(X + 1, Y + 1), (X + 1, Y + 1 + (H - 2) - 1), (X + m, Y + m + (H - 2 * m) - 1),
      (X + m, Y + m)],
    [(X + 1 + (W - 2) - 1, Y + 1), (X + 1 + (W - 2) - 1, Y + 1 + (H - 2) - 1),
      (X + m + (W - 2 * m) - 1, Y + m + (H - 2 * m) - 1), (X + m + (W - 2 * m) - 1, Y + m)],
    [(X + 1, Y + 1), (X + 1 + (W - 2) - 1, Y + 1), (X + m + (W - 2 * m) - 1, Y + m),
      (X + m, Y + m)],
    [(X + 1 + (W - 2) - 1, Y + 1 + (H - 2) - 1), (X + 1, Y + 1 + (H - 2) - 1),
      (X + m, Y + m + (H - 2 * m) - 1),
      (X + m + (W - 2 * m) - 1, Y + m + (H - 2 * m) - 1)],
    [(X + m, Y + m), (X + m + (W - 2 * m) - 1, Y + m),
      (X + m + (W - 2 * m) - 1, Y + m + (H - 2 * m) - 1),
      (X + m, Y + m + (H - 2 * m) - 1)]]

/-! ## Vocabulary of the drag session -/

/-- Modelled from the spec: the Manhattan distance `|o.x - p.x| + |o.y - p.y|` of the
origin position `o` and a pointer position `p`, over the integers. -/
def manhattanDistance (o p : Int × Int) : Int :=
  (if o.1 - p.1 ≥ 0 then o.1 - p.1 else -(o.1 - p.1)) +
    (if o.2 - p.2 ≥ 0 then o.2 - p.2 else -(o.2 - p.2))

/-- The coordinates of a point are values of type `int`. -/
def isQPoint (p : Int × Int) : Prop :=
  (-2147483648 ≤ p.1 ∧ p.1 ≤ 2147483647) ∧ (-2147483648 ≤ p.2 ∧ p.2 ≤ 2147483647)

/-- The two points are `QPoint`s and their Manhattan distance is a value of type `int`:
the range in which `manhattanLength` of their difference does not wrap. -/
def distanceFits (o p : Int × Int) : Prop :=
  isQPoint o ∧ isQPoint p ∧ manhattanDistance o p ≤ 2147483647

instance (p : Int × Int) : Decidable (isQPoint p) := by
  unfold isQPoint
  infer_instance

instance (o p : Int × Int) : Decidable (distanceFits o p) := by
  unfold distanceFits
  infer_instance

/-- The pointer moves of one gesture on a window, delivered to `windowDragged` in
order; the state after the last of them. -/
def pointerMoves (s : WindowDockManager) (window : Nat) :
    List (Int × Int) → WindowDockManager
  | [] => s
  | mousePos :: rest => pointerMoves (windowDragged s window mousePos).2 window rest

/-! ## States of a drag session (window B = 2 dragged in scenario 2) -/

/-- Scenario 2 after the first pointer event on window B at `(0, 50)`: B is the tracked
window and `(0, 50)` is the recorded origin. -/
def dragArmed : WindowDockManager :=
  { scenario2 with mLastDraggedWindow := some 2, mLastDragPosition := (0, 50) }

/-- The session of `dragArmed` after a pointer move that took B out of the tree: A is
the only docked window, B floats, the recorded origin is still `(0, 50)`. -/
def dragFloating : WindowDockManager :=
  { mCentralOrientation := Orientation.Horizontal
    mCentralSplitter := [Widget.window 1]
    mDockedWindows := [(1, { dockLocation := CM_WINDROP_LEFT, parentId := -1 })]
    windowFlags := [1]
    mLastDraggedWindow := some 2
    mLastDragPosition := (0, 50) }

section Induction

variable {Q : List Widget → Prop}

mutual
/-- Auxiliary half of `forest_induction` for a single widget. -/
theorem forest_induction_widget (hnil : Q [])
    (hwin : ∀ v cs, Q cs → Q (Widget.window v :: cs))
    (hspl : ∀ o cs1 cs, Q cs1 → Q cs → Q (Widget.splitter o cs1 :: cs)) :
    ∀ c : Widget, ∀ cs, Q cs → Q (c :: cs)
  | Widget.window v => fun cs h => hwin v cs h
  | Widget.splitter o cs1 => fun cs h => hspl o cs1 cs (forest_induction hnil hwin hspl cs1) h
/-- Induction over a sequence of sibling widgets together with everything below it. -/
theorem forest_induction (hnil : Q [])
    (hwin : ∀ v cs, Q cs → Q (Widget.window v :: cs))
    (hspl : ∀ o cs1 cs, Q cs1 → Q cs → Q (Widget.splitter o cs1 :: cs)) :
    ∀ cs : List Widget, Q cs
  | [] => hnil
  | c :: cs => forest_induction_widget hnil hwin hspl c cs (forest_induction hnil hwin hspl cs)
end

end Induction

@[simp] theorem leavesList_nil : leavesList [] = [] := by simp [leavesList]

@[simp] theorem leavesList_window (v : Nat) (cs : List Widget) :
    leavesList (Widget.window v :: cs) = v :: leavesList cs := by
  simp [leavesList, Widget.leaves]

@[simp] theorem leavesList_splitter (o : Orientation) (cs1 cs : List Widget) :
    leavesList (Widget.splitter o cs1 :: cs) = leavesList cs1 ++ leavesList cs := by
  simp [leavesList, Widget.leaves]

theorem leavesList_cons (c : Widget) (cs : List Widget) :
    leavesList (c :: cs) = c.leaves ++ leavesList cs := by
  simp [leavesList]

@[simp] theorem leavesList_append (as bs : List Widget) :
    leavesList (as ++ bs) = leavesList as ++ leavesList bs := by
  induction as with
  | nil => simp
  | cons c cs ih => simp [leavesList_cons, ih]

@[simp] theorem locateIn_nil (w : Nat) : locateIn w [] = none := by simp [locateIn]

@[simp] theorem locateIn_window (w v : Nat) (cs : List Widget) :
    locateIn w (Widget.window v :: cs) =
      if v = w then some ([], 0) else (locateIn w cs).map shiftRight := by
  simp [locateIn]

@[simp] theorem locateIn_splitter (w : Nat) (o : Orientation) (cs1 cs : List Widget) :
    locateIn w (Widget.splitter o cs1 :: cs) =
      match locateIn w cs1 with
      | some loc => some (below loc)
      | none => (locateIn w cs).map shiftRight := by
  simp [locateIn, Widget.locate]

theorem locateIn_eq_none_iff (w : Nat) :
    ∀ cs : List Widget, locateIn w cs = none ↔ w ∉ leavesList cs := by
  apply forest_induction
  · simp
  · intro v cs ih
    by_cases h : v = w
    · simp [h]
    · have h2 : ¬ w = v := fun e => h e.symm
      simp [h, h2, ih]
  · intro o cs1 cs ih1 ih
    cases h1 : locateIn w cs1 with
    | none => simp [h1, ih, ih1.mp h1]
    | some loc =>
      have : w ∈ leavesList cs1 := by
        by_contra hc
        rw [ih1.mpr hc] at h1
        cases h1
      simp [h1, this]

/-! ### Editing the splitter at a path -/

@[simp] theorem modifyAt_nil (f : List Widget → List Widget) (cs : List Widget) :
    modifyAt f cs [] = f cs := by
  simp [modifyAt]

theorem modifyAt_cons_of_get (f : List Widget → List Widget) {cs : List Widget} {i : Nat}
    {o1 : Orientation} {cs1 : List Widget} (h : cs[i]? = some (Widget.splitter o1 cs1))
    (p : List Nat) :
    modifyAt f cs (i :: p) = cs.set i (Widget.splitter o1 (modifyAt f cs1 p)) := by
  simp [modifyAt, h]

@[simp] theorem splitterAt_nil (o : Orientation) (cs : List Widget) :
    splitterAt o cs [] = some (o, cs) := by
  simp [splitterAt]

theorem splitterAt_cons_of_get (o : Orientation) {cs : List Widget} {i : Nat}
    {o1 : Orientation} {cs1 : List Widget} (h : cs[i]? = some (Widget.splitter o1 cs1))
    (p : List Nat) :
    splitterAt o cs (i :: p) = splitterAt o1 cs1 p := by
  simp [splitterAt, h]

/-- A valid path starts at a child that is a splitter. -/
theorem splitterAt_cons_inv {o : Orientation} {cs : List Widget} {i : Nat} {p : List Nat}
    {r : Orientation × List Widget} (h : splitterAt o cs (i :: p) = some r) :
    ∃ o1 cs1, cs[i]? = some (Widget.splitter o1 cs1) ∧ splitterAt o1 cs1 p = some r := by
  unfold splitterAt at h
  split at h
  · next o1 cs1 hget => exact ⟨o1, cs1, hget, h⟩
  · cases h

theorem lt_length_of_getElem? {α : Type} {l : List α} {i : Nat} {x : α} (h : l[i]? = some x) :
    i < l.length := by
  by_contra hc
  rw [List.getElem?_eq_none (by omega)] at h
  cases h

theorem list_split_at {α : Type} {l : List α} {i : Nat} {x : α} (h : l[i]? = some x) :
    l = l.take i ++ x :: l.drop (i + 1) := by
  have hlt := lt_length_of_getElem? h
  have hx : l[i] = x := by
    have := List.getElem?_eq_getElem hlt
    rw [this] at h
    exact Option.some.inj h
  rw [← hx]
  simp

theorem list_set_split {α : Type} (l : List α) {i : Nat} (y : α) (hlt : i < l.length) :
    l.set i y = l.take i ++ y :: l.drop (i + 1) := by
  rw [List.set_eq_take_append_cons_drop, if_pos hlt]

theorem list_set_self {α : Type} {l : List α} {i : Nat} {x : α} (h : l[i]? = some x) :
    l.set i x = l := by
  rw [list_set_split l x (lt_length_of_getElem? h)]
  exact (list_split_at h).symm

theorem splitterAt_modifyAt (f : List Widget → List Widget) :
    ∀ (p : List Nat) (o : Orientation) (cs : List Widget) (po : Orientation)
      (ch : List Widget), splitterAt o cs p = some (po, ch) →
      splitterAt o (modifyAt f cs p) p = some (po, f ch) := by
  intro p
  induction p with
  | nil =>
    intro o cs po ch h
    simp at h
    simp [h.1, h.2]
  | cons i p ih =>
    intro o cs po ch h
    obtain ⟨o1, cs1, hget, hrest⟩ := splitterAt_cons_inv h
    have hlt := lt_length_of_getElem? hget
    rw [modifyAt_cons_of_get f hget]
    have hget2 : (cs.set i (Widget.splitter o1 (modifyAt f cs1 p)))[i]? =
        some (Widget.splitter o1 (modifyAt f cs1 p)) := by
      simp [List.getElem?_set, hlt]
    rw [splitterAt_cons_of_get o hget2]
    exact ih o1 cs1 po ch hrest

theorem modifyAt_modifyAt (f g : List Widget → List Widget) :
    ∀ (p : List Nat) (cs : List Widget),
      modifyAt g (modifyAt f cs p) p = modifyAt (fun ch => g (f ch)) cs p := by
  intro p
  induction p with
  | nil => intro cs; simp
  | cons i p ih =>
    intro cs
    cases hget : cs[i]? with
    | none => simp [modifyAt, hget]
    | some c =>
      cases c with
      | window v => simp [modifyAt, hget]
      | splitter o1 cs1 =>
        have hlt := lt_length_of_getElem? hget
        rw [modifyAt_cons_of_get f hget, modifyAt_cons_of_get _ hget]
        have hget2 : (cs.set i (Widget.splitter o1 (modifyAt f cs1 p)))[i]? =
            some (Widget.splitter o1 (modifyAt f cs1 p)) := by
          simp [List.getElem?_set, hlt]
        rw [modifyAt_cons_of_get g hget2, ih cs1, List.set_set]

theorem modifyAt_congr (f g : List Widget → List Widget) :
    ∀ (p : List Nat) (o : Orientation) (cs : List Widget) (po : Orientation)
      (ch : List Widget), splitterAt o cs p = some (po, ch) → f ch = g ch →
      modifyAt f cs p = modifyAt g cs p := by
  intro p
  induction p with
  | nil =>
    intro o cs po ch h hfg
    simp at h
    simp [h.2, hfg]
  | cons i p ih =>
    intro o cs po ch h hfg
    obtain ⟨o1, cs1, hget, hrest⟩ := splitterAt_cons_inv h
    rw [modifyAt_cons_of_get f hget, modifyAt_cons_of_get g hget, ih o1 cs1 po ch hrest hfg]

theorem modifyAt_id : ∀ (p : List Nat) (cs : List Widget), modifyAt (fun ch => ch) cs p = cs := by
  intro p
  induction p with
  | nil => intro cs; simp
  | cons i p ih =>
    intro cs
    cases hget : cs[i]? with
    | none => simp [modifyAt, hget]
    | some c =>
      cases c with
      | window v => simp [modifyAt, hget]
      | splitter o1 cs1 =>
        rw [modifyAt_cons_of_get _ hget, ih cs1]
        exact list_set_self hget

/-- Editing a child sequence by a function that leaves it as it is changes nothing. -/
theorem modifyAt_of_fix (f : List Widget → List Widget) (p : List Nat) (o : Orientation)
    (cs : List Widget) (po : Orientation) (ch : List Widget)
    (h : splitterAt o cs p = some (po, ch)) (hf : f ch = ch) : modifyAt f cs p = cs := by
  rw [modifyAt_congr f (fun ch => ch) p o cs po ch h hf, modifyAt_id]

/-- The leaves of the tree are the leaves of the splitter at a valid path, framed by a
left and a right context that an edit of that splitter does not touch. -/
theorem leaves_modifyAt :
    ∀ (p : List Nat) (o : Orientation) (cs : List Widget) (po : Orientation)
      (ch : List Widget), splitterAt o cs p = some (po, ch) →
      ∃ L R, leavesList cs = L ++ leavesList ch ++ R ∧
        ∀ f : List Widget → List Widget,
          leavesList (modifyAt f cs p) = L ++ leavesList (f ch) ++ R := by
  intro p
  induction p with
  | nil =>
    intro o cs po ch h
    simp at h
    exact ⟨[], [], by simp [h.2], by intro f; simp [h.2]⟩
  | cons i p ih =>
    intro o cs po ch h
    obtain ⟨o1, cs1, hget, hrest⟩ := splitterAt_cons_inv h
    have hlt := lt_length_of_getElem? hget
    obtain ⟨L1, R1, h1, h2⟩ := ih o1 cs1 po ch hrest
    refine ⟨leavesList (cs.take i) ++ L1, R1 ++ leavesList (cs.drop (i + 1)), ?_, ?_⟩
    · conv_lhs => rw [list_split_at hget]
      simp [h1]
    · intro f
      rw [modifyAt_cons_of_get f hget, list_set_split cs _ hlt]
      simp [h2 f]

/-! ### Splitters with at least two children -/

@[simp] theorem noDegenerate_window (v : Nat) : (Widget.window v).noDegenerate = true := by
  simp [Widget.noDegenerate]

@[simp] theorem noDegenerate_splitter (o : Orientation) (cs : List Widget) :
    (Widget.splitter o cs).noDegenerate = true ↔ 2 ≤ cs.length ∧ noDegenerateList cs = true := by
  simp [Widget.noDegenerate]

theorem noDegenerateList_iff (cs : List Widget) :
    noDegenerateList cs = true ↔ ∀ c ∈ cs, c.noDegenerate = true := by
  induction cs with
  | nil => simp [noDegenerateList]
  | cons c cs ih => simp [noDegenerateList, ih]

theorem noDegenerate_of_getElem? {cs : List Widget} {i : Nat} {c : Widget}
    (h : noDegenerateList cs = true) (hget : cs[i]? = some c) : c.noDegenerate = true := by
  rw [noDegenerateList_iff] at h
  exact h c (List.getElem?_mem hget)

theorem noDegenerateList_set {cs : List Widget} (i : Nat) {c : Widget}
    (h : noDegenerateList cs = true) (hc : c.noDegenerate = true) :
    noDegenerateList (cs.set i c) = true := by
  rw [noDegenerateList_iff] at h ⊢
  intro d hd
  rcases List.mem_or_eq_of_mem_set hd with hd | hd
  · exact h d hd
  · rw [hd]; exact hc

theorem noDegenerateList_eraseIdx {cs : List Widget} (i : Nat)
    (h : noDegenerateList cs = true) : noDegenerateList (cs.eraseIdx i) = true := by
  rw [noDegenerateList_iff] at h ⊢
  intro d hd
  exact h d (List.mem_of_mem_eraseIdx hd)

theorem noDegenerateList_insertWidget {cs : List Widget} (i : Nat) {c : Widget}
    (h : noDegenerateList cs = true) (hc : c.noDegenerate = true) :
    noDegenerateList (insertWidget i c cs) = true := by
  rw [noDegenerateList_iff] at h ⊢
  intro d hd
  unfold insertWidget at hd
  split at hd
  · rw [List.mem_append, List.mem_cons] at hd
    rcases hd with hd | hd | hd
    · exact h d (List.mem_of_mem_take hd)
    · rw [hd]; exact hc
    · exact h d (List.mem_of_mem_drop hd)
  · rw [List.mem_append, List.mem_singleton] at hd
    rcases hd with hd | hd
    · exact h d hd
    · rw [hd]; exact hc

theorem length_insertWidget (i : Nat) (c : Widget) (cs : List Widget) :
    (insertWidget i c cs).length = cs.length + 1 := by
  unfold insertWidget
  split
  · simp; omega
  · simp

/-- In a tree without degenerate splitters the splitter at a valid path has no
degenerate splitter below it and, unless it is the root, at least two children. -/
theorem noDegenerate_splitterAt :
    ∀ (p : List Nat) (o : Orientation) (cs : List Widget) (po : Orientation)
      (ch : List Widget), splitterAt o cs p = some (po, ch) → noDegenerateList cs = true →
      noDegenerateList ch = true ∧ (p ≠ [] → 2 ≤ ch.length) := by
  intro p
  induction p with
  | nil =>
    intro o cs po ch h hnd
    simp at h
    simp [← h.2, hnd]
  | cons i p ih =>
    intro o cs po ch h hnd
    obtain ⟨o1, cs1, hget, hrest⟩ := splitterAt_cons_inv h
    have h1 := noDegenerate_of_getElem? hnd hget
    rw [noDegenerate_splitter] at h1
    have h2 := ih o1 cs1 po ch hrest h1.2
    refine ⟨h2.1, fun _ => ?_⟩
    by_cases hp : p = []
    · subst hp
      simp at hrest
      rw [← hrest.2]
      exact h1.1
    · exact h2.2 hp

theorem length_modifyAt_cons (f : List Widget → List Widget) (cs : List Widget) (i : Nat)
    (p : List Nat) : (modifyAt f cs (i :: p)).length = cs.length := by
  unfold modifyAt
  split <;> simp

/-- An edit of the splitter at a valid path keeps the tree free of degenerate splitters
when the new child sequence is free of them and, unless the splitter is the root, has at
least two members. -/
theorem noDegenerate_modifyAt (f : List Widget → List Widget) :
    ∀ (p : List Nat) (o : Orientation) (cs : List Widget) (po : Orientation)
      (ch : List Widget), splitterAt o cs p = some (po, ch) → noDegenerateList cs = true →
      noDegenerateList (f ch) = true → (p ≠ [] → 2 ≤ (f ch).length) →
      noDegenerateList (modifyAt f cs p) = true := by
  intro p
  induction p with
  | nil =>
    intro o cs po ch h hnd hf _
    simp at h
    simpa [h.2] using hf
  | cons i p ih =>
    intro o cs po ch h hnd hf hlen
    obtain ⟨o1, cs1, hget, hrest⟩ := splitterAt_cons_inv h
    have h1 := noDegenerate_of_getElem? hnd hget
    rw [noDegenerate_splitter] at h1
    rw [modifyAt_cons_of_get f hget]
    apply noDegenerateList_set i hnd
    rw [noDegenerate_splitter]
    constructor
    · by_cases hp : p = []
      · subst hp
        simp at hrest
        simp only [modifyAt_nil]
        rw [hrest.2]
        exact hlen (by simp)
      · obtain ⟨j, q, hq⟩ := List.exists_cons_of_ne_nil hp
        rw [hq, length_modifyAt_cons]
        exact h1.1
    · apply ih o1 cs1 po ch hrest h1.2 hf
      intro hp
      exact hlen (by simp)

/-! ### Locating a window -/

/-- A located window is the child at the reported index of the splitter at the reported
path. -/
theorem locateIn_spec (w : Nat) :
    ∀ (cs : List Widget) (o : Orientation) (p : List Nat) (i : Nat),
      locateIn w cs = some (p, i) →
      ∃ po ch, splitterAt o cs p = some (po, ch) ∧ ch[i]? = some (Widget.window w) := by
  apply forest_induction
  · intro o p i h
    simp at h
  · intro v cs ih o p i h
    rw [locateIn_window] at h
    by_cases hv : v = w
    · simp [hv] at h
      obtain ⟨rfl, rfl⟩ := h
      exact ⟨o, Widget.window v :: cs, by simp, by simp [hv]⟩
    · simp only [hv, if_false] at h
      cases hl : locateIn w cs with
      | none => simp [hl] at h
      | some loc =>
        obtain ⟨q, j⟩ := loc
        obtain ⟨po, ch, hs, hg⟩ := ih o q j hl
        simp only [hl, Option.map_some', Option.some.injEq] at h
        cases q with
        | nil =>
          simp [shiftRight] at h
          obtain ⟨rfl, rfl⟩ := h
          simp at hs
          refine ⟨o, Widget.window v :: cs, by simp, ?_⟩
          rw [← hs.2] at hg
          simpa using hg
        | cons k q =>
          simp [shiftRight] at h
          obtain ⟨rfl, rfl⟩ := h
          obtain ⟨o1, cs1, hget, hrest⟩ := splitterAt_cons_inv hs
          have hget2 : (Widget.window v :: cs)[k + 1]? = some (Widget.splitter o1 cs1) := by
            simpa using hget
          exact ⟨po, ch, by rw [splitterAt_cons_of_get o hget2]; exact hrest, hg⟩
  · intro o1 cs1 cs ih1 ih o p i h
    rw [locateIn_splitter] at h
    cases hl1 : locateIn w cs1 with
    | some loc =>
      obtain ⟨q, j⟩ := loc
      simp [hl1, below] at h
      obtain ⟨rfl, rfl⟩ := h
      obtain ⟨po, ch, hs, hg⟩ := ih1 o1 q j hl1
      have hget2 : (Widget.splitter o1 cs1 :: cs)[0]? = some (Widget.splitter o1 cs1) := by simp
      exact ⟨po, ch, by rw [splitterAt_cons_of_get o hget2]; exact hs, hg⟩
    | none =>
      simp only [hl1] at h
      cases hl : locateIn w cs with
      | none => simp [hl] at h
      | some loc =>
        obtain ⟨q, j⟩ := loc
        obtain ⟨po, ch, hs, hg⟩ := ih o q j hl
        simp only [hl, Option.map_some', Option.some.injEq] at h
        cases q with
        | nil =>
          simp [shiftRight] at h
          obtain ⟨rfl, rfl⟩ := h
          simp at hs
          refine ⟨o, Widget.splitter o1 cs1 :: cs, by simp, ?_⟩
          rw [← hs.2] at hg
          simpa using hg
        | cons k q =>
          simp [shiftRight] at h
          obtain ⟨rfl, rfl⟩ := h
          obtain ⟨o2, cs2, hget, hrest⟩ := splitterAt_cons_inv hs
          have hget2 : (Widget.splitter o1 cs1 :: cs)[k + 1]? = some (Widget.splitter o2 cs2) := by
            simpa using hget
          exact ⟨po, ch, by rw [splitterAt_cons_of_get o hget2]; exact hrest, hg⟩

/-- A window that is not below the siblings `pre` and comes right after them is located
at index `pre.length` of the sequence itself. -/
theorem locateIn_append_window (w : Nat) (post : List Widget) :
    ∀ pre : List Widget, w ∉ leavesList pre →
      locateIn w (pre ++ Widget.window w :: post) = some ([], pre.length) := by
  intro pre
  induction pre with
  | nil => intro _; simp
  | cons c pre ih =>
    intro h
    cases c with
    | window v =>
      simp only [leavesList_window, List.mem_cons, not_or] at h
      have hv : ¬ v = w := fun e => h.1 e.symm
      simp [hv, ih h.2, shiftRight]
    | splitter o1 cs1 =>
      simp only [leavesList_splitter, List.mem_append, not_or] at h
      have h1 := (locateIn_eq_none_iff w cs1).mpr h.1
      simp [h1, ih h.2, shiftRight]

/-- A window that is not below the siblings `pre` and is located below the splitter that
comes right after them is located one level deeper in the whole sequence. -/
theorem locateIn_append_splitter (w : Nat) (o1 : Orientation) (cs1 : List Widget)
    (q : List Nat) (j : Nat) (h1 : locateIn w cs1 = some (q, j)) (post : List Widget) :
    ∀ pre : List Widget, w ∉ leavesList pre →
      locateIn w (pre ++ Widget.splitter o1 cs1 :: post) = some (pre.length :: q, j) := by
  intro pre
  induction pre with
  | nil => intro _; simp [h1, below]
  | cons c pre ih =>
    intro h
    cases c with
    | window v =>
      simp only [leavesList_window, List.mem_cons, not_or] at h
      have hv : ¬ v = w := fun e => h.1 e.symm
      simp [hv, ih h.2, shiftRight]
    | splitter o2 cs2 =>
      simp only [leavesList_splitter, List.mem_append, not_or] at h
      have h2 := (locateIn_eq_none_iff w cs2).mpr h.1
      simp [h2, ih h.2, shiftRight]

/-- Where a window that was not in the tree is found after the splitter at a valid path
has been edited so that the window is below it. -/
theorem locateIn_modifyAt (w : Nat) (f : List Widget → List Widget) (q : List Nat) (j : Nat) :
    ∀ (p : List Nat) (o : Orientation) (cs : List Widget) (po : Orientation)
      (ch : List Widget), splitterAt o cs p = some (po, ch) → w ∉ leavesList cs →
      locateIn w (f ch) = some (q, j) →
      locateIn w (modifyAt f cs p) = some (p ++ q, j) := by
  intro p
  induction p with
  | nil =>
    intro o cs po ch h _ hf
    simp at h
    simpa [h.2] using hf
  | cons i p ih =>
    intro o cs po ch h hw hf
    obtain ⟨o1, cs1, hget, hrest⟩ := splitterAt_cons_inv h
    have hlt := lt_length_of_getElem? hget
    have hsplit := list_split_at hget
    rw [hsplit] at hw
    simp only [leavesList_append, leavesList_splitter, List.mem_append, not_or] at hw
    have h1 := ih o1 cs1 po ch hrest hw.2.1 hf
    rw [modifyAt_cons_of_get f hget, list_set_split cs _ hlt]
    have := locateIn_append_splitter w o1 (modifyAt f cs1 p) (p ++ q) j h1
      (cs.drop (i + 1)) (cs.take i) hw.1
    rw [this]
    simp [List.length_take, Nat.min_eq_left (Nat.le_of_lt hlt)]

/-! ### Paths with a last step -/

theorem modifyAt_append (f : List Widget → List Widget) (r : List Nat) :
    ∀ (q : List Nat) (cs : List Widget),
      modifyAt f cs (q ++ r) = modifyAt (fun tch => modifyAt f tch r) cs q := by
  intro q
  induction q with
  | nil => intro cs; simp
  | cons i q ih =>
    intro cs
    cases hget : cs[i]? with
    | none => simp [modifyAt, hget]
    | some c =>
      cases c with
      | window v => simp [modifyAt, hget]
      | splitter o1 cs1 =>
        rw [List.cons_append, modifyAt_cons_of_get f hget, modifyAt_cons_of_get _ hget, ih cs1]

theorem splitterAt_append (r : List Nat) :
    ∀ (q : List Nat) (o : Orientation) (cs : List Widget),
      splitterAt o cs (q ++ r) =
        (splitterAt o cs q).bind (fun x => splitterAt x.1 x.2 r) := by
  intro q
  induction q with
  | nil => intro o cs; simp
  | cons i q ih =>
    intro o cs
    cases hget : cs[i]? with
    | none => simp [splitterAt, hget]
    | some c =>
      cases c with
      | window v => simp [splitterAt, hget]
      | splitter o1 cs1 =>
        rw [List.cons_append, splitterAt_cons_of_get o hget, splitterAt_cons_of_get o hget,
          ih o1 cs1]

/-- A path that is not empty is its front followed by its last index. -/
theorem path_snoc {p : List Nat} (hp : p ≠ []) : p = p.dropLast ++ [p.getLast?.getD 0] := by
  have h := List.dropLast_append_getLast hp
  rw [List.getLast?_eq_getLast _ hp]
  simpa using h.symm

/-- The splitter at a path with a last step `k` is child `k` of the splitter at the
front of the path. -/
theorem splitterAt_snoc_inv {o : Orientation} {cs : List Widget} {q : List Nat} {k : Nat}
    {po : Orientation} {ch : List Widget} (h : splitterAt o cs (q ++ [k]) = some (po, ch)) :
    ∃ qo tch, splitterAt o cs q = some (qo, tch) ∧ tch[k]? = some (Widget.splitter po ch) := by
  rw [splitterAt_append] at h
  cases hq : splitterAt o cs q with
  | none => simp [hq] at h
  | some x =>
    obtain ⟨qo, tch⟩ := x
    simp only [hq, Option.some_bind] at h
    obtain ⟨o1, cs1, hget, hrest⟩ := splitterAt_cons_inv h
    simp at hrest
    exact ⟨qo, tch, rfl, by rw [hget, hrest.1, hrest.2]⟩

/-! ### Re-parenting a window -/

theorem rebase_self (i : Nat) : ∀ p : List Nat, rebase p i p = p := by
  intro p
  induction p with
  | nil => simp [rebase]
  | cons k p ih => simp [rebase, ih]

theorem detach_of_not_mem {w : Nat} {cs : List Widget} (h : w ∉ leavesList cs) (p : List Nat) :
    detach w cs p = (cs, p) := by
  simp [detach, (locateIn_eq_none_iff w cs).mpr h]

theorem mem_leavesList_iff (x : Nat) (cs : List Widget) :
    x ∈ leavesList cs ↔ ∃ c ∈ cs, x ∈ c.leaves := by
  induction cs with
  | nil => simp
  | cons c cs ih => simp [leavesList_cons, ih]

/-- A window that is not in the tree is not in the tree after a leaf has been taken out
of the splitter at a valid path. -/
theorem not_mem_leaves_eraseIdx {o : Orientation} {cs : List Widget} {p : List Nat}
    {po : Orientation} {ch : List Widget} (hp : splitterAt o cs p = some (po, ch)) {t : Nat}
    (ht : t ∉ leavesList cs) (i : Nat) :
    t ∉ leavesList (modifyAt (fun ch => ch.eraseIdx i) cs p) := by
  obtain ⟨L, R, h1, h2⟩ := leaves_modifyAt p o cs po ch hp
  rw [h2]
  rw [h1] at ht
  simp only [List.mem_append, not_or] at ht ⊢
  refine ⟨⟨ht.1.1, ?_⟩, ht.2⟩
  intro hc
  apply ht.1.2
  rw [mem_leavesList_iff] at hc ⊢
  obtain ⟨c, hc1, hc2⟩ := hc
  exact ⟨c, List.mem_of_mem_eraseIdx hc1, hc2⟩

theorem detach_of_located {w : Nat} {cs : List Widget} {p : List Nat} {i : Nat}
    (h : locateIn w cs = some (p, i)) :
    detach w cs p = (modifyAt (fun ch => ch.eraseIdx i) cs p, p) := by
  simp [detach, h, rebase_self]

theorem insertWidget_eraseIdx (i : Nat) (c : Widget) (ch : List Widget) (h : i < ch.length) :
    insertWidget i c (ch.eraseIdx i) = ch.set i c := by
  have hlen : (ch.eraseIdx i).length = ch.length - 1 := by
    rw [List.length_eraseIdx, if_pos h]
  unfold insertWidget
  rw [if_pos (by omega), list_set_split ch c h, List.eraseIdx_eq_take_drop_succ]
  rw [List.take_append_of_le_length (by simp; omega),
    List.drop_append_of_le_length (by simp; omega)]
  simp [List.take_take, List.drop_take]

theorem eraseIdx_insertWidget (i : Nat) (c : Widget) (ch : List Widget) (h : i ≤ ch.length) :
    (insertWidget i c ch).eraseIdx i = ch := by
  unfold insertWidget
  rw [if_pos h, List.eraseIdx_append_of_length_le (by simp)]
  simp [List.length_take, Nat.min_eq_left h]

theorem addWindow_pair {t a : Nat} (h : t ≠ a) :
    addWindow a (addWindow t []) = [Widget.window t, Widget.window a] := by
  simp [addWindow, isWindow, h]

theorem orientationAt_eq {o : Orientation} {cs : List Widget} {p : List Nat} {po : Orientation}
    {ch : List Widget} (h : splitterAt o cs p = some (po, ch)) : orientationAt o cs p = po := by
  simp [orientationAt, h]

/-- Same-axis docking edits only the anchor's parent: the window is inserted at the
anchor's index (left, top) or right after it (right, bottom). -/
theorem dockAt_same_axis {o : Orientation} {cs : List Widget} {p : List Nat} {i t a : Nat}
    {z : WindowDragDropLocation} {po : Orientation} {ch : List Widget}
    (ht : t ∉ leavesList cs) (hp : splitterAt o cs p = some (po, ch))
    (hz : isEdgeZone z = true) (hax : po = naturalAxis z) :
    dockAt o cs p i t a z =
      modifyAt (insertWidget (if placesBefore z = true then i else i + 1) (Widget.window t))
        cs p := by
  subst hax
  cases z <;>
    simp [dockAt, orientationAt_eq hp, detach_of_not_mem ht, naturalAxis, placesBefore,
      isEdgeZone] at hz ⊢

/-- Cross-axis docking edits only the anchor's parent: the anchor's slot receives a new
splitter along the zone's natural axis that holds the window and the anchor. -/
theorem dockAt_cross_axis {o : Orientation} {cs : List Widget} {p : List Nat} {i t a : Nat}
    {z : WindowDragDropLocation} {po : Orientation} {ch : List Widget}
    (ht : t ∉ leavesList cs) (ha : locateIn a cs = some (p, i))
    (hp : splitterAt o cs p = some (po, ch))
    (hz : isEdgeZone z = true) (hax : po ≠ naturalAxis z) :
    dockAt o cs p i t a z =
      modifyAt (fun ch => ch.set i (Widget.splitter (naturalAxis z)
        (if placesBefore z = true then [Widget.window t, Widget.window a]
          else [Widget.window a, Widget.window t]))) cs p := by
  have hta : t ≠ a := by
    intro e
    subst e
    rw [(locateIn_eq_none_iff t cs).mpr ht] at ha
    cases ha
  have hat : a ≠ t := fun e => hta e.symm
  obtain ⟨po2, ch2, hp2, hget⟩ := locateIn_spec a cs o p i ha
  rw [hp] at hp2
  obtain ⟨rfl, rfl⟩ := Prod.mk.inj (Option.some.inj hp2)
  have hlt := lt_length_of_getElem? hget
  have key : ∀ S : Widget,
      modifyAt (insertWidget i S) (modifyAt (fun ch => ch.eraseIdx i) cs p) p =
        modifyAt (fun ch => ch.set i S) cs p := by
    intro S
    rw [modifyAt_modifyAt]
    exact modifyAt_congr _ _ p o cs po ch hp (insertWidget_eraseIdx i S ch hlt)
  have ht2 := not_mem_leaves_eraseIdx hp ht i
  cases z <;> cases po <;>
    simp [dockAt, orientationAt_eq hp, detach_of_not_mem ht, detach_of_located ha,
      detach_of_not_mem ht2, naturalAxis, placesBefore, isEdgeZone, addWindow_pair hta,
      addWindow_pair hat, key] at hz hax ⊢

/-! ### The collapse step -/

theorem collapse_root (o : Orientation) (cs : List Widget) : collapse o cs [] = cs := by
  simp [collapse]

theorem collapse_of_length_ne_one {o : Orientation} {cs : List Widget} {p : List Nat}
    {po : Orientation} {ch : List Widget} (hp : splitterAt o cs p = some (po, ch))
    (hlen : ch.length ≠ 1) : collapse o cs p = cs := by
  unfold collapse
  split
  · rw [hp]
    split
    · next x r heq =>
      obtain ⟨-, h2⟩ := Prod.mk.inj (Option.some.inj heq)
      rw [h2] at hlen
      simp at hlen
    · rfl
  · rfl

theorem insert_then_erase_next (A B : List Widget) (S r : Widget) :
    (insertWidget A.length r (A ++ S :: B)).eraseIdx (A.length + 1) = A ++ r :: B := by
  unfold insertWidget
  rw [if_pos (by simp)]
  rw [List.take_left, List.drop_left]
  rw [List.eraseIdx_append_of_length_le (by omega)]
  simp

/-- The collapse replaces the one-child splitter at index `k` of its parent by the
remaining child. -/
theorem collapse_snoc {o : Orientation} {cs : List Widget} {q : List Nat} {k : Nat}
    {qo po : Orientation} {tch : List Widget} {r : Widget}
    (hq : splitterAt o cs q = some (qo, tch))
    (hk : tch[k]? = some (Widget.splitter po [r])) :
    collapse o cs (q ++ [k]) = modifyAt (fun tch => tch.set k r) cs q := by
  have hp : splitterAt o cs (q ++ [k]) = some (po, [r]) := by
    rw [splitterAt_append, hq]
    simp only [Option.some_bind]
    rw [splitterAt_cons_of_get qo hk]
    simp
  have hlt := lt_length_of_getElem? hk
  unfold collapse
  rw [if_pos (by simp), hp]
  simp only [List.dropLast_concat, List.getLast?_concat, Option.getD_some]
  rw [modifyAt_append, modifyAt_modifyAt, modifyAt_modifyAt]
  apply modifyAt_congr _ _ q o cs qo tch hq
  rw [modifyAt_cons_of_get _ hk, modifyAt_nil, list_set_split tch _ hlt, list_set_split tch _ hlt]
  have hA : (tch.take k).length = k := by
    simp [List.length_take, Nat.min_eq_left (Nat.le_of_lt hlt)]
  have := insert_then_erase_next (tch.take k) (tch.drop (k + 1)) (Widget.splitter po []) r
  rw [hA] at this
  exact this

theorem leavesList_set {cs : List Widget} {k : Nat} {c d : Widget} (hk : cs[k]? = some c)
    (h : d.leaves = c.leaves) : leavesList (cs.set k d) = leavesList cs := by
  have hlt := lt_length_of_getElem? hk
  rw [list_set_split cs d hlt]
  conv_rhs => rw [list_split_at hk]
  simp [leavesList_cons, h]

/-- The collapse step keeps the sequence of window leaves. -/
theorem leavesList_collapse (o : Orientation) (cs : List Widget) (p : List Nat) :
    leavesList (collapse o cs p) = leavesList cs := by
  by_cases hp : p = []
  · subst hp; rw [collapse_root]
  · cases hs : splitterAt o cs p with
    | none => simp [collapse, hs]
    | some x =>
      obtain ⟨po, ch⟩ := x
      by_cases hlen : ch.length = 1
      · obtain ⟨r, hr⟩ := List.length_eq_one.mp hlen
        subst hr
        rw [path_snoc hp] at hs ⊢
        obtain ⟨qo, tch, hq, hk⟩ := splitterAt_snoc_inv hs
        rw [collapse_snoc hq hk]
        obtain ⟨L, R, h1, h2⟩ := leaves_modifyAt _ o cs qo tch hq
        rw [h2, h1]
        congr 2
        apply leavesList_set hk
        simp [Widget.leaves, leavesList]
      · exact congrArg leavesList (collapse_of_length_ne_one hs hlen)

/-- Without a collapse the tree after an undock is the old one with the window erased
from its parent. -/
theorem undockTree_plain {o : Orientation} {cs : List Widget} {p : List Nat} {i : Nat}
    {po : Orientation} {ch : List Widget} (hp : splitterAt o cs p = some (po, ch))
    (h : p = [] ∨ (ch.eraseIdx i).length ≠ 1) :
    undockTree o cs p i = modifyAt (fun ch => ch.eraseIdx i) cs p := by
  unfold undockTree
  rcases h with h | h
  · subst h; rw [collapse_root]
  · exact collapse_of_length_ne_one (splitterAt_modifyAt _ p o cs po ch hp) h

/-- With a collapse the tree after an undock is the old one with the parent splitter
replaced, in its own parent, by the sibling that remains. -/
theorem undockTree_collapse {o : Orientation} {cs : List Widget} {q : List Nat} {k i : Nat}
    {qo po : Orientation} {tch ch : List Widget} {r : Widget}
    (hq : splitterAt o cs q = some (qo, tch))
    (hk : tch[k]? = some (Widget.splitter po ch)) (hr : ch.eraseIdx i = [r]) :
    undockTree o cs (q ++ [k]) i = modifyAt (fun tch => tch.set k r) cs q := by
  have hlt := lt_length_of_getElem? hk
  unfold undockTree
  rw [modifyAt_append]
  have hq1 := splitterAt_modifyAt (fun tch => modifyAt (fun ch => ch.eraseIdx i) tch [k]) q o cs
    qo tch hq
  have hk1 : (modifyAt (fun ch => ch.eraseIdx i) tch [k])[k]? =
      some (Widget.splitter po [r]) := by
    rw [modifyAt_cons_of_get _ hk, modifyAt_nil, hr]
    simp [List.getElem?_set, hlt]
  rw [collapse_snoc hq1 hk1, modifyAt_modifyAt]
  apply modifyAt_congr _ _ q o cs qo tch hq
  rw [modifyAt_cons_of_get _ hk, List.set_set]

/-! ### The registry -/

theorem lookup_isSome_iff (k : Nat) :
    ∀ m : List (Nat × DockedWindowInfo), (m.lookup k).isSome = true ↔ k ∈ m.map Prod.fst := by
  intro m
  induction m with
  | nil => simp
  | cons e m ih =>
    obtain ⟨k1, v1⟩ := e
    by_cases h : k = k1
    · subst h; simp [List.lookup]
    · have hb : (k == k1) = false := by simpa using h
      simp [List.lookup, hb, ih, h]

theorem isDocked_iff (s : WindowDockManager) (w : Nat) :
    s.isDocked w = true ↔ w ∈ s.registered := by
  simp only [WindowDockManager.isDocked, WindowDockManager.registered]
  exact lookup_isSome_iff w s.mDockedWindows

theorem isDocked_eq_false_iff (s : WindowDockManager) (w : Nat) :
    s.isDocked w = false ↔ w ∉ s.registered := by
  rw [← isDocked_iff]
  simp

theorem mem_mapAssign (k : Nat) (v : DockedWindowInfo) (x : Nat) :
    ∀ m : List (Nat × DockedWindowInfo),
      x ∈ (mapAssign k v m).map Prod.fst ↔ x = k ∨ x ∈ m.map Prod.fst := by
  intro m
  induction m with
  | nil => simp [mapAssign]
  | cons e m ih =>
    obtain ⟨k1, v1⟩ := e
    unfold mapAssign
    split
    · simp
    · split
      · next h => simp at h; subst h; simp
      · simp only [List.map_cons, List.mem_cons, ih]
        tauto

theorem mem_mapErase (k : Nat) (x : Nat) (m : List (Nat × DockedWindowInfo)) :
    x ∈ (mapErase k m).map Prod.fst ↔ x ≠ k ∧ x ∈ m.map Prod.fst := by
  simp only [mapErase, List.mem_map, List.mem_filter]
  constructor
  · rintro ⟨e, ⟨he, hk⟩, rfl⟩
    exact ⟨by simpa using hk, e, he, rfl⟩
  · rintro ⟨hx, e, he, rfl⟩
    exact ⟨e, ⟨he, by simpa using hx⟩, rfl⟩

theorem mapErase_of_not_mem (k : Nat) :
    ∀ m : List (Nat × DockedWindowInfo), k ∉ m.map Prod.fst → mapErase k m = m := by
  intro m h
  unfold mapErase
  rw [List.filter_eq_self]
  intro e he
  have : e.1 ≠ k := by
    intro hk
    exact h (List.mem_map.mpr ⟨e, he, hk⟩)
  simpa using this

theorem mapErase_mapAssign (k : Nat) (v : DockedWindowInfo) :
    ∀ m : List (Nat × DockedWindowInfo), k ∉ m.map Prod.fst →
      mapErase k (mapAssign k v m) = m := by
  intro m
  induction m with
  | nil => intro _; simp [mapAssign, mapErase]
  | cons e m ih =>
    intro h
    obtain ⟨k1, v1⟩ := e
    simp only [List.map_cons, List.mem_cons, not_or] at h
    have hne : k ≠ k1 := h.1
    have hne2 : ¬ k1 = k := fun e => hne e.symm
    have hm := mapErase_of_not_mem k m h.2
    unfold mapAssign
    split
    · have h1 : mapErase k ((k1, v1) :: m) = (k1, v1) :: m :=
        mapErase_of_not_mem k _ (by simp [hne, h.2])
      simp only [mapErase, List.filter_cons] at h1 ⊢
      simpa using h1
    · have := ih h.2
      simp only [mapErase, List.filter_cons] at this ⊢
      simp [hne2, this]

theorem lookup_mapAssign (k : Nat) (v : DockedWindowInfo) :
    ∀ m : List (Nat × DockedWindowInfo), (mapAssign k v m).lookup k = some v := by
  intro m
  induction m with
  | nil => simp [mapAssign, List.lookup]
  | cons e m ih =>
    obtain ⟨k1, v1⟩ := e
    unfold mapAssign
    split
    · simp [List.lookup]
    · split
      · simp [List.lookup]
      · next h1 h2 =>
        have hb : (k == k1) = false := by simpa using h2
        simp [List.lookup, hb, ih]

/-! ### Leaves and degenerate splitters after a dock or an undock -/

theorem leavesList_take_drop (k : Nat) (ch : List Widget) :
    leavesList ch = leavesList (ch.take k) ++ leavesList (ch.drop k) := by
  rw [← leavesList_append, List.take_append_drop]

theorem leavesList_insertWidget_window (k t : Nat) (ch : List Widget) (hk : k ≤ ch.length) :
    leavesList (insertWidget k (Widget.window t) ch) =
      leavesList (ch.take k) ++ t :: leavesList (ch.drop k) := by
  simp [insertWidget, hk]

theorem edgeZone_ne {z : WindowDragDropLocation} (hz : isEdgeZone z = true) :
    ¬ (z = CM_WINDROP_NONE ∨ z = CM_WINDROP_CENTER) := by
  cases z <;> simp [isEdgeZone] at hz ⊢

/-- Docking next to a located anchor inserts the window at one position of the leaf
sequence. -/
theorem dockAt_leaves {o : Orientation} {cs : List Widget} {p : List Nat} {i t a : Nat}
    {z : WindowDragDropLocation} (ht : t ∉ leavesList cs) (ha : locateIn a cs = some (p, i))
    (hz : isEdgeZone z = true) :
    InsertedInto t (leavesList cs) (leavesList (dockAt o cs p i t a z)) := by
  obtain ⟨po, ch, hp, hget⟩ := locateIn_spec a cs o p i ha
  have hlt := lt_length_of_getElem? hget
  obtain ⟨L, R, h1, h2⟩ := leaves_modifyAt p o cs po ch hp
  by_cases hax : po = naturalAxis z
  · rw [dockAt_same_axis ht hp hz hax, h2, h1]
    by_cases hb : placesBefore z = true
    · rw [if_pos hb, leavesList_insertWidget_window i t ch (by omega),
        leavesList_take_drop i ch]
      exact ⟨L ++ leavesList (ch.take i), leavesList (ch.drop i) ++ R, by simp, by simp⟩
    · rw [if_neg hb, leavesList_insertWidget_window (i + 1) t ch (by omega),
        leavesList_take_drop (i + 1) ch]
      exact ⟨L ++ leavesList (ch.take (i + 1)), leavesList (ch.drop (i + 1)) ++ R,
        by simp, by simp⟩
  · rw [dockAt_cross_axis ht ha hp hz hax, h2, h1, list_set_split ch _ hlt]
    conv_lhs => rw [list_split_at hget]
    by_cases hb : placesBefore z = true
    · rw [if_pos hb]
      exact ⟨L ++ leavesList (ch.take i), a :: leavesList (ch.drop (i + 1)) ++ R,
        by simp, by simp⟩
    · rw [if_neg hb]
      exact ⟨L ++ leavesList (ch.take i) ++ [a], leavesList (ch.drop (i + 1)) ++ R,
        by simp, by simp⟩

/-- Docking next to a located anchor creates no degenerate splitter. -/
theorem dockAt_noDegenerate {o : Orientation} {cs : List Widget} {p : List Nat} {i t a : Nat}
    {z : WindowDragDropLocation} (ht : t ∉ leavesList cs) (ha : locateIn a cs = some (p, i))
    (hz : isEdgeZone z = true) (hnd : noDegenerateList cs = true) :
    noDegenerateList (dockAt o cs p i t a z) = true := by
  obtain ⟨po, ch, hp, hget⟩ := locateIn_spec a cs o p i ha
  have hlt := lt_length_of_getElem? hget
  have hch := noDegenerate_splitterAt p o cs po ch hp hnd
  by_cases hax : po = naturalAxis z
  · rw [dockAt_same_axis ht hp hz hax]
    apply noDegenerate_modifyAt _ p o cs po ch hp hnd
    · exact noDegenerateList_insertWidget _ hch.1 (by simp)
    · intro _
      rw [length_insertWidget]
      omega
  · rw [dockAt_cross_axis ht ha hp hz hax]
    apply noDegenerate_modifyAt _ p o cs po ch hp hnd
    · apply noDegenerateList_set i hch.1
      rw [noDegenerate_splitter]
      by_cases hb : placesBefore z = true
      · simp [hb, noDegenerateList]
      · simp [hb, noDegenerateList]
    · intro hne
      rw [List.length_set]
      exact hch.2 hne

theorem leavesList_eraseIdx_window {ch : List Widget} {i w : Nat}
    (hget : ch[i]? = some (Widget.window w)) :
    ∃ A B, leavesList (ch.eraseIdx i) = A ++ B ∧ leavesList ch = A ++ w :: B := by
  refine ⟨leavesList (ch.take i), leavesList (ch.drop (i + 1)), ?_, ?_⟩
  · rw [List.eraseIdx_eq_take_drop_succ, leavesList_append]
  · conv_lhs => rw [list_split_at hget]
    simp

/-- Undocking a located window erases it at one position of the leaf sequence. -/
theorem undockTree_leaves {o : Orientation} {cs : List Widget} {p : List Nat} {i w : Nat}
    (hw : locateIn w cs = some (p, i)) :
    InsertedInto w (leavesList (undockTree o cs p i)) (leavesList cs) := by
  obtain ⟨po, ch, hp, hget⟩ := locateIn_spec w cs o p i hw
  obtain ⟨L, R, h1, h2⟩ := leaves_modifyAt p o cs po ch hp
  obtain ⟨A, B, hA, hB⟩ := leavesList_eraseIdx_window hget
  unfold undockTree
  rw [leavesList_collapse, h2, h1, hA, hB]
  exact ⟨L ++ A, B ++ R, by simp, by simp⟩

/-- Undocking a located window from a tree without degenerate splitters leaves no
degenerate splitter. -/
theorem undockTree_noDegenerate {o : Orientation} {cs : List Widget} {p : List Nat} {i w : Nat}
    (hw : locateIn w cs = some (p, i)) (hnd : noDegenerateList cs = true) :
    noDegenerateList (undockTree o cs p i) = true := by
  obtain ⟨po, ch, hp, hget⟩ := locateIn_spec w cs o p i hw
  have hlt := lt_length_of_getElem? hget
  have hch := noDegenerate_splitterAt p o cs po ch hp hnd
  have hlen : (ch.eraseIdx i).length = ch.length - 1 := by
    rw [List.length_eraseIdx, if_pos hlt]
  by_cases hroot : p = []
  · rw [undockTree_plain hp (Or.inl hroot)]
    apply noDegenerate_modifyAt _ p o cs po ch hp hnd (noDegenerateList_eraseIdx i hch.1)
    intro hne
    exact absurd hroot hne
  · have h2 := hch.2 hroot
    by_cases hone : (ch.eraseIdx i).length = 1
    · obtain ⟨r, hr⟩ := List.length_eq_one.mp hone
      rw [path_snoc hroot] at hp ⊢
      obtain ⟨qo, tch, hq, hk⟩ := splitterAt_snoc_inv hp
      rw [undockTree_collapse hq hk hr]
      have htch := noDegenerate_splitterAt _ o cs qo tch hq hnd
      apply noDegenerate_modifyAt _ _ o cs qo tch hq hnd
      · apply noDegenerateList_set _ htch.1
        have hmem : r ∈ ch := by
          apply List.mem_of_mem_eraseIdx
          rw [hr]
          simp
        exact (noDegenerateList_iff ch).mp hch.1 r hmem
      · intro hne
        rw [List.length_set]
        exact htch.2 hne
    · rw [undockTree_plain hp (Or.inr hone)]
      apply noDegenerate_modifyAt _ p o cs po ch hp hnd (noDegenerateList_eraseIdx i hch.1)
      intro _
      omega

/-! ### The calls case by case -/

theorem dockWindow_of_isDocked {s : WindowDockManager} {t : Nat} (h : s.isDocked t = true)
    (a : Option Nat) (z : WindowDragDropLocation) :
    dockWindow s t a z = (Outcome.failed DockError.AlreadyDockedError, s) := by
  simp [dockWindow, h]

theorem dockWindow_of_not_edge {s : WindowDockManager} {t : Nat} (h : s.isDocked t = false)
    (a : Option Nat) {z : WindowDragDropLocation} (hz : isEdgeZone z = false) :
    dockWindow s t a z = (Outcome.returned, s) := by
  cases z <;> simp [dockWindow, h, isEdgeZone] at hz ⊢

theorem dockWindow_root {s : WindowDockManager} {t : Nat} (h : s.isDocked t = false)
    {z : WindowDragDropLocation} (hz : isEdgeZone z = true) :
    dockWindow s t none z =
      (Outcome.returned,
        { s with
          mCentralSplitter := (detach t s.mCentralSplitter []).1 ++ [Widget.window t]
          windowFlags := windowDock t s.windowFlags
          mDockedWindows :=
            mapAssign t { dockLocation := z, parentId := -1 } s.mDockedWindows }) := by
  simp [dockWindow, h, edgeZone_ne hz]

theorem dockWindow_orphan {s : WindowDockManager} {t a : Nat} (h : s.isDocked t = false)
    {z : WindowDragDropLocation} (hz : isEdgeZone z = true)
    (ha : locateIn a s.mCentralSplitter = none) :
    dockWindow s t (some a) z = (Outcome.warned, s) := by
  simp [dockWindow, h, edgeZone_ne hz, ha]

theorem dockWindow_anchor {s : WindowDockManager} {t a : Nat} (h : s.isDocked t = false)
    {z : WindowDragDropLocation} (hz : isEdgeZone z = true) {p : List Nat} {i : Nat}
    (ha : locateIn a s.mCentralSplitter = some (p, i)) :
    dockWindow s t (some a) z =
      (Outcome.returned,
        { s with
          mCentralSplitter := dockAt s.mCentralOrientation s.mCentralSplitter p i t a z
          windowFlags := windowDock t s.windowFlags
          mDockedWindows :=
            mapAssign t { dockLocation := z, parentId := a } s.mDockedWindows }) := by
  simp [dockWindow, h, edgeZone_ne hz, ha]

theorem undockWindow_floating {s : WindowDockManager} {w : Nat}
    (hw : locateIn w s.mCentralSplitter = none) :
    undockWindow s w = (Outcome.warned, s) := by
  simp [undockWindow, hw]

theorem undockWindow_located {s : WindowDockManager} {w : Nat} {p : List Nat} {i : Nat}
    (hw : locateIn w s.mCentralSplitter = some (p, i)) (hd : s.isDocked w = true) :
    undockWindow s w =
      (Outcome.returned,
        { s with
          mCentralSplitter := undockTree s.mCentralOrientation s.mCentralSplitter p i
          windowFlags := windowUndock w s.windowFlags
          mDockedWindows := mapErase w s.mDockedWindows }) := by
  simp [undockWindow, hw, hd, detach_of_located hw, undockTree]

theorem undockWindow_unregistered {s : WindowDockManager} {w : Nat} {p : List Nat} {i : Nat}
    (hw : locateIn w s.mCentralSplitter = some (p, i)) (hd : s.isDocked w = false) :
    undockWindow s w =
      (Outcome.failed DockError.NotDockedError,
        { s with
          mCentralSplitter := undockTree s.mCentralOrientation s.mCentralSplitter p i
          windowFlags := windowUndock w s.windowFlags }) := by
  simp [undockWindow, hw, hd, detach_of_located hw, undockTree]

/-! ### Invariance of I1 and I2 -/

theorem InsertedInto.mem_iff {t : Nat} {before after : List Nat}
    (h : InsertedInto t before after) (x : Nat) : x ∈ after ↔ x = t ∨ x ∈ before := by
  obtain ⟨A, B, rfl, rfl⟩ := h
  simp only [List.mem_append, List.mem_cons]
  tauto

theorem InsertedInto.nodup_iff {t : Nat} {before after : List Nat}
    (h : InsertedInto t before after) : after.Nodup ↔ t ∉ before ∧ before.Nodup := by
  obtain ⟨A, B, rfl, rfl⟩ := h
  have hperm : (A ++ t :: B).Perm (t :: (A ++ B)) := List.perm_middle
  rw [hperm.nodup_iff, List.nodup_cons]

theorem not_mem_leaves_of_I2 {s : WindowDockManager} (h2 : I2 s) {t : Nat}
    (ht : s.isDocked t = false) : t ∉ leavesList s.mCentralSplitter := by
  intro hc
  exact (isDocked_eq_false_iff s t).mp ht (h2.2.1 t hc)

theorem located_of_I2 {s : WindowDockManager} (h2 : I2 s) {w : Nat}
    (hw : s.isDocked w = true) : ∃ p i, locateIn w s.mCentralSplitter = some (p, i) := by
  have hmem := h2.1 w ((isDocked_iff s w).mp hw)
  cases hl : locateIn w s.mCentralSplitter with
  | none => exact absurd hmem ((locateIn_eq_none_iff w _).mp hl)
  | some loc => exact ⟨loc.1, loc.2, rfl⟩

theorem isDocked_of_located {s : WindowDockManager} (h2 : I2 s) {w : Nat} {p : List Nat} {i : Nat}
    (hw : locateIn w s.mCentralSplitter = some (p, i)) : s.isDocked w = true := by
  rw [isDocked_iff]
  apply h2.2.1
  by_contra hc
  rw [(locateIn_eq_none_iff w _).mpr hc] at hw
  cases hw

/-- Adding a window that is neither registered nor a leaf to both the registry and the
leaf sequence keeps I2. -/
theorem I2_of_inserted {s s1 : WindowDockManager} {t : Nat} (h2 : I2 s)
    (ht : s.isDocked t = false)
    (hreg : ∀ x, x ∈ s1.registered ↔ x = t ∨ x ∈ s.registered)
    (hl : InsertedInto t (leavesList s.mCentralSplitter) (leavesList s1.mCentralSplitter)) :
    I2 s1 := by
  refine ⟨?_, ?_, ?_⟩
  · intro x hx
    rw [hl.mem_iff]
    rcases (hreg x).mp hx with h | h
    · exact Or.inl h
    · exact Or.inr (h2.1 x h)
  · intro x hx
    rw [hreg]
    rcases (hl.mem_iff x).mp hx with h | h
    · exact Or.inl h
    · exact Or.inr (h2.2.1 x h)
  · rw [hl.nodup_iff]
    exact ⟨not_mem_leaves_of_I2 h2 ht, h2.2.2⟩

/-- Removing a window from both the registry and the leaf sequence keeps I2. -/
theorem I2_of_erased {s s1 : WindowDockManager} {w : Nat} (h2 : I2 s)
    (hreg : ∀ x, x ∈ s1.registered ↔ x ≠ w ∧ x ∈ s.registered)
    (hl : InsertedInto w (leavesList s1.mCentralSplitter) (leavesList s.mCentralSplitter)) :
    I2 s1 := by
  have hnd := hl.nodup_iff.mp h2.2.2
  refine ⟨?_, ?_, hnd.2⟩
  · intro x hx
    obtain ⟨hne, hx2⟩ := (hreg x).mp hx
    rcases (hl.mem_iff x).mp (h2.1 x hx2) with h | h
    · exact absurd h hne
    · exact h
  · intro x hx
    rw [hreg]
    refine ⟨?_, h2.2.1 x ((hl.mem_iff x).mpr (Or.inr hx))⟩
    intro e
    subst e
    exact hnd.1 hx

theorem inv_dockWindow {s : WindowDockManager} (h : I1 s ∧ I2 s) (t : Nat) (a : Option Nat)
    (z : WindowDragDropLocation) : I1 (dockWindow s t a z).2 ∧ I2 (dockWindow s t a z).2 := by
  obtain ⟨h1, h2⟩ := h
  cases hd : s.isDocked t with
  | true => rw [dockWindow_of_isDocked hd]; exact ⟨h1, h2⟩
  | false =>
    cases hz : isEdgeZone z with
    | false => rw [dockWindow_of_not_edge hd a hz]; exact ⟨h1, h2⟩
    | true =>
      have ht := not_mem_leaves_of_I2 h2 hd
      cases a with
      | none =>
        rw [dockWindow_root hd hz]
        constructor
        · simp only [I1, detach_of_not_mem ht]
          have h1c := (noDegenerateList_iff _).mp h1
          rw [noDegenerateList_iff]
          intro c hc
          rcases List.mem_append.mp hc with hc | hc
          · exact h1c c hc
          · rw [List.mem_singleton.mp hc]; simp
        · apply I2_of_inserted h2 hd
          · intro x
            simp only [WindowDockManager.registered]
            exact mem_mapAssign _ _ x _
          · simp only [detach_of_not_mem ht, leavesList_append, leavesList_window,
              leavesList_nil]
            exact ⟨leavesList s.mCentralSplitter, [], by simp, rfl⟩
      | some a =>
        cases ha : locateIn a s.mCentralSplitter with
        | none => rw [dockWindow_orphan hd hz ha]; exact ⟨h1, h2⟩
        | some loc =>
          obtain ⟨p, i⟩ := loc
          rw [dockWindow_anchor hd hz ha]
          constructor
          · exact dockAt_noDegenerate ht ha hz h1
          · apply I2_of_inserted h2 hd
            · intro x
              simp only [WindowDockManager.registered]
              exact mem_mapAssign _ _ x _
            · exact dockAt_leaves ht ha hz

theorem inv_undockWindow {s : WindowDockManager} (h : I1 s ∧ I2 s) (w : Nat) :
    I1 (undockWindow s w).2 ∧ I2 (undockWindow s w).2 := by
  obtain ⟨h1, h2⟩ := h
  cases hw : locateIn w s.mCentralSplitter with
  | none => rw [undockWindow_floating hw]; exact ⟨h1, h2⟩
  | some loc =>
    obtain ⟨p, i⟩ := loc
    rw [undockWindow_located hw (isDocked_of_located h2 hw)]
    constructor
    · exact undockTree_noDegenerate hw h1
    · apply I2_of_erased h2
      · intro x
        simp only [WindowDockManager.registered]
        exact mem_mapErase w x _
      · exact undockTree_leaves hw

/-- Every reachable state satisfies I1 and I2. -/
theorem reachable_inv {s : WindowDockManager} (h : Reachable s) : I1 s ∧ I2 s := by
  induction h with
  | init => exact ⟨by decide, by decide⟩
  | dock s t a z _ ih => exact inv_dockWindow ih t a z
  | undock s w _ ih => exact inv_undockWindow ih w

/-! ### Lemmas for the claims -/

theorem insertWidget_before (pre post : List Widget) (a x : Widget) :
    insertWidget pre.length x (pre ++ a :: post) = pre ++ x :: a :: post := by
  unfold insertWidget
  rw [if_pos (by simp), List.take_left, List.drop_left]

theorem insertWidget_after (pre post : List Widget) (a x : Widget) :
    insertWidget (pre.length + 1) x (pre ++ a :: post) = pre ++ a :: x :: post := by
  unfold insertWidget
  rw [if_pos (by simp), List.take_append, List.drop_append]
  simp

theorem split_at_located {ch : List Widget} {i : Nat} {c : Widget} (hget : ch[i]? = some c) :
    ∃ pre post, ch = pre ++ c :: post ∧ pre.length = i := by
  have hlt := lt_length_of_getElem? hget
  exact ⟨ch.take i, ch.drop (i + 1), list_split_at hget,
    by simp [List.length_take, Nat.min_eq_left (Nat.le_of_lt hlt)]⟩

theorem set_at_located (pre post : List Widget) (c d : Widget) :
    (pre ++ c :: post).set pre.length d = pre ++ d :: post := by
  rw [List.set_append_right _ _ (Nat.le_refl _)]
  simp

theorem eraseIdx_at_located (pre post : List Widget) (c : Widget) :
    (pre ++ c :: post).eraseIdx pre.length = pre ++ post := by
  rw [List.eraseIdx_append_of_length_le (Nat.le_refl _)]
  simp

theorem lookup_mapErase (k : Nat) (m : List (Nat × DockedWindowInfo)) :
    ((mapErase k m).lookup k).isSome = false := by
  cases h : ((mapErase k m).lookup k).isSome with
  | false => rfl
  | true =>
    have := (mem_mapErase k k m).mp ((lookup_isSome_iff k _).mp h)
    exact absurd rfl this.1

/-- The leaves of the splitter at a valid path are leaves of the tree. -/
theorem mem_leaves_of_splitterAt {o : Orientation} {cs : List Widget} {p : List Nat}
    {po : Orientation} {ch : List Widget} (hp : splitterAt o cs p = some (po, ch)) {x : Nat}
    (hx : x ∈ leavesList ch) : x ∈ leavesList cs := by
  obtain ⟨L, R, h1, -⟩ := leaves_modifyAt p o cs po ch hp
  rw [h1]
  simp [hx]

theorem scenario1_reachable : Reachable scenario1 :=
  Reachable.dock WindowDockManager.init 1 none CM_WINDROP_LEFT Reachable.init

theorem scenario2_reachable : Reachable scenario2 :=
  Reachable.dock scenario1 2 (some 1) CM_WINDROP_RIGHT scenario1_reachable

theorem scenario3_reachable : Reachable scenario3 :=
  Reachable.dock scenario2 3 (some 1) CM_WINDROP_TOP scenario2_reachable

/-! ## The claims -/

/-- C1 (I2 / P2, registry and tree in bijection): in every state reachable from the
freshly constructed manager by `dockWindow` and `undockWindow` calls, whatever their
outcome, a window is registered in `mDockedWindows` exactly when it is a window leaf
below `mCentralSplitter`, and no window is a leaf twice. -/
theorem registry_tree_bijection (s : WindowDockManager) (h : Reachable s) :
    (∀ w, w ∈ s.registered ↔ w ∈ leavesList s.mCentralSplitter) ∧
      (leavesList s.mCentralSplitter).Nodup := by
  have h2 := (reachable_inv h).2
  exact ⟨fun w => ⟨h2.1 w, h2.2.1 w⟩, h2.2.2⟩

/-- Witness for C1: the state of scenario 3 is reachable and satisfies the bijection. -/
theorem registry_tree_bijection_witness :
    Reachable scenario3 ∧
      ((∀ w, w ∈ scenario3.registered ↔ w ∈ leavesList scenario3.mCentralSplitter) ∧
        (leavesList scenario3.mCentralSplitter).Nodup) :=
  ⟨scenario3_reachable, registry_tree_bijection scenario3 scenario3_reachable⟩

/-- C2 (I1 / P3, no degenerate splitters): in every reachable state, also one reached
through several undocks in a row, the state in which an `undockWindow` call ends has no
splitter other than `mCentralSplitter` with fewer than two children. -/
theorem no_degenerate_splitter_after_undock (s : WindowDockManager) (h : Reachable s)
    (w : Nat) :
    I1 (undockWindow s w).2 ∧
      ∀ (p : List Nat) (po : Orientation) (ch : List Widget), p ≠ [] →
        splitterAt (undockWindow s w).2.mCentralOrientation
          (undockWindow s w).2.mCentralSplitter p = some (po, ch) →
        2 ≤ ch.length := by
  have hinv := (inv_undockWindow (reachable_inv h) w).1
  refine ⟨hinv, ?_⟩
  intro p po ch hne hp
  exact (noDegenerate_splitterAt p _ _ po ch hp hinv).2 hne

/-- Witness for C2: undocking B in scenario 3, which leaves the vertical splitter with
its two children as the only child of the root. -/
theorem no_degenerate_splitter_after_undock_witness :
    Reachable scenario3 ∧
      (I1 (undockWindow scenario3 2).2 ∧
        ∀ (p : List Nat) (po : Orientation) (ch : List Widget), p ≠ [] →
          splitterAt (undockWindow scenario3 2).2.mCentralOrientation
            (undockWindow scenario3 2).2.mCentralSplitter p = some (po, ch) →
          2 ≤ ch.length) :=
  ⟨scenario3_reachable, no_degenerate_splitter_after_undock scenario3 scenario3_reachable 2⟩

/-- C7 (docking with no anchor): in a state satisfying I2, for a target that is not
registered and a zone among left, right, top, bottom, `dockWindow(target, nullptr, zone)`
returns normally, appends the target as the last child of `mCentralSplitter` and changes
nothing else in the tree; afterwards `isDocked(target)` holds, the recorded location is
the zone and the recorded parent id is -1. -/
theorem dock_without_anchor (s : WindowDockManager) (h2 : I2 s) (t : Nat)
    (z : WindowDragDropLocation) (hz : isEdgeZone z = true) (ht : s.isDocked t = false) :
    (dockWindow s t none z).1 = Outcome.returned ∧
      (dockWindow s t none z).2.mCentralSplitter = s.mCentralSplitter ++ [Widget.window t] ∧
      (dockWindow s t none z).2.mCentralOrientation = s.mCentralOrientation ∧
      (dockWindow s t none z).2.isDocked t = true ∧
      (dockWindow s t none z).2.getDockLocation t = some z ∧
      (dockWindow s t none z).2.getDockParentId t = some (-1) := by
  rw [dockWindow_root ht hz]
  simp [detach_of_not_mem (not_mem_leaves_of_I2 h2 ht), WindowDockManager.isDocked,
    WindowDockManager.getDockLocation, WindowDockManager.getDockParentId, lookup_mapAssign]

/-- Witness for C7: scenario 1, docking A to the left into the empty root. -/
theorem dock_without_anchor_witness :
    I2 WindowDockManager.init ∧ isEdgeZone CM_WINDROP_LEFT = true ∧
      WindowDockManager.init.isDocked 1 = false ∧
      ((dockWindow WindowDockManager.init 1 none CM_WINDROP_LEFT).1 = Outcome.returned ∧
        (dockWindow WindowDockManager.init 1 none CM_WINDROP_LEFT).2.mCentralSplitter =
          WindowDockManager.init.mCentralSplitter ++ [Widget.window 1] ∧
        (dockWindow WindowDockManager.init 1 none CM_WINDROP_LEFT).2.mCentralOrientation =
          WindowDockManager.init.mCentralOrientation ∧
        (dockWindow WindowDockManager.init 1 none CM_WINDROP_LEFT).2.isDocked 1 = true ∧
        (dockWindow WindowDockManager.init 1 none CM_WINDROP_LEFT).2.getDockLocation 1 =
          some CM_WINDROP_LEFT ∧
        (dockWindow WindowDockManager.init 1 none CM_WINDROP_LEFT).2.getDockParentId 1 =
          some (-1)) :=
  ⟨by decide, by decide, by decide,
    dock_without_anchor WindowDockManager.init (by decide) 1 CM_WINDROP_LEFT (by decide)
      (by decide)⟩

/-- Counterexample to C8 as stated: in scenario 2 window C is not registered, and
`undockWindow(C)` logs a warning and returns normally instead of failing with
`NotDockedError`. -/
theorem undock_unregistered_counterexample :
    scenario2.isDocked 3 = false ∧
      undockWindow scenario2 3 = (Outcome.warned, scenario2) ∧
      (undockWindow scenario2 3).1 ≠ Outcome.failed DockError.NotDockedError :=
  ⟨by decide, rfl, by decide⟩

/-- C8 as amended (`undockWindow` on a window that is not registered): when the window
has no parent splitter, which is so for every unregistered window in a state satisfying
I2, the call logs a warning and returns normally with the manager unchanged; when the
window is a leaf of the tree, the call fails with `NotDockedError`. -/
theorem undock_unregistered (s : WindowDockManager) (w : Nat) (hw : s.isDocked w = false) :
    (w ∉ leavesList s.mCentralSplitter → undockWindow s w = (Outcome.warned, s)) ∧
      (I2 s → undockWindow s w = (Outcome.warned, s)) ∧
      (w ∈ leavesList s.mCentralSplitter →
        (undockWindow s w).1 = Outcome.failed DockError.NotDockedError) := by
  have hfl : w ∉ leavesList s.mCentralSplitter → undockWindow s w = (Outcome.warned, s) :=
    fun h => undockWindow_floating ((locateIn_eq_none_iff w _).mpr h)
  refine ⟨hfl, fun h2 => hfl (not_mem_leaves_of_I2 h2 hw), ?_⟩
  intro hmem
  cases hl : locateIn w s.mCentralSplitter with
  | none => exact absurd hmem ((locateIn_eq_none_iff w _).mp hl)
  | some loc =>
    obtain ⟨p, i⟩ := loc
    rw [undockWindow_unregistered hl hw]

/-- Witness for C8 as amended: window C in scenario 2. -/
theorem undock_unregistered_witness :
    scenario2.isDocked 3 = false ∧
      ((3 ∉ leavesList scenario2.mCentralSplitter →
          undockWindow scenario2 3 = (Outcome.warned, scenario2)) ∧
        (I2 scenario2 → undockWindow scenario2 3 = (Outcome.warned, scenario2)) ∧
        (3 ∈ leavesList scenario2.mCentralSplitter →
          (undockWindow scenario2 3).1 = Outcome.failed DockError.NotDockedError)) :=
  ⟨by decide, undock_unregistered scenario2 3 (by decide)⟩

/-- Counterexample to C9 as stated: in scenario 2 window C is not registered and window
7 has no parent splitter, and `dockWindow(C, 7, left)` logs a warning and returns
normally with the manager unchanged instead of failing with `OrphanedAnchorError`. -/
theorem dock_orphaned_anchor_counterexample :
    scenario2.isDocked 3 = false ∧ locateIn 7 scenario2.mCentralSplitter = none ∧
      dockWindow scenario2 3 (some 7) CM_WINDROP_LEFT = (Outcome.warned, scenario2) ∧
      (dockWindow scenario2 3 (some 7) CM_WINDROP_LEFT).1 ≠
        Outcome.failed DockError.OrphanedAnchorError :=
  ⟨by decide, by decide, rfl, by decide⟩

/-- C9 as amended (`dockWindow` with an anchor that has no parent splitter): for a target
that is not registered and a zone among left, right, top, bottom, the call logs a warning
and returns normally; the tree and the registry are unchanged and the target is not
docked. -/
theorem dock_orphaned_anchor (s : WindowDockManager) (t a : Nat) (z : WindowDragDropLocation)
    (ht : s.isDocked t = false) (hz : isEdgeZone z = true)
    (ha : locateIn a s.mCentralSplitter = none) :
    dockWindow s t (some a) z = (Outcome.warned, s) ∧
      (dockWindow s t (some a) z).2.isDocked t = false := by
  rw [dockWindow_orphan ht hz ha]
  exact ⟨rfl, ht⟩

/-- Witness for C9 as amended: window C docked at window 7 in scenario 2. -/
theorem dock_orphaned_anchor_witness :
    scenario2.isDocked 3 = false ∧ isEdgeZone CM_WINDROP_LEFT = true ∧
      locateIn 7 scenario2.mCentralSplitter = none ∧
      (dockWindow scenario2 3 (some 7) CM_WINDROP_LEFT = (Outcome.warned, scenario2) ∧
        (dockWindow scenario2 3 (some 7) CM_WINDROP_LEFT).2.isDocked 3 = false) :=
  ⟨by decide, by decide, by decide,
    dock_orphaned_anchor scenario2 3 7 CM_WINDROP_LEFT (by decide) (by decide) (by decide)⟩

/-- C10 (`dockWindow` on a registered target): in every state, for every anchor and every
zone, the call fails with `AlreadyDockedError` (the `assert` at the top of the function)
and the manager, tree and registry included, is as before the call. -/
theorem dock_already_docked (s : WindowDockManager) (t : Nat) (a : Option Nat)
    (z : WindowDragDropLocation) (ht : s.isDocked t = true) :
    dockWindow s t a z = (Outcome.failed DockError.AlreadyDockedError, s) :=
  dockWindow_of_isDocked ht a z

/-- Witness for C10: docking A again in scenario 2, at the centre of B. -/
theorem dock_already_docked_witness :
    scenario2.isDocked 1 = true ∧
      dockWindow scenario2 1 (some 2) CM_WINDROP_CENTER =
        (Outcome.failed DockError.AlreadyDockedError, scenario2) :=
  ⟨by decide, dock_already_docked scenario2 1 (some 2) CM_WINDROP_CENTER (by decide)⟩

/-- C5 (same-axis insertion): in a state satisfying I2, for a target that is not
registered, an anchor sitting at index `i` of the splitter at path `p` whose orientation
is the zone's natural axis, `dockWindow(target, anchor, zone)` returns normally and
replaces the child sequence `pre ++ anchor :: post` of that splitter by the same sequence
with the target right before the anchor (left, top) or right after it (right, bottom);
the rest of the tree, orientations included, is unchanged and no splitter is created. -/
theorem same_axis_insertion (s : WindowDockManager) (h2 : I2 s) (t a : Nat)
    (z : WindowDragDropLocation) (hz : isEdgeZone z = true) (ht : s.isDocked t = false)
    (p : List Nat) (i : Nat) (po : Orientation) (ch : List Widget)
    (ha : locateIn a s.mCentralSplitter = some (p, i))
    (hp : splitterAt s.mCentralOrientation s.mCentralSplitter p = some (po, ch))
    (hax : po = naturalAxis z) :
    ∃ pre post, ch = pre ++ Widget.window a :: post ∧ pre.length = i ∧
      (dockWindow s t (some a) z).1 = Outcome.returned ∧
      (dockWindow s t (some a) z).2.mCentralOrientation = s.mCentralOrientation ∧
      (dockWindow s t (some a) z).2.mCentralSplitter =
        modifyAt (fun _ =>
          if placesBefore z = true then pre ++ Widget.window t :: Widget.window a :: post
          else pre ++ Widget.window a :: Widget.window t :: post) s.mCentralSplitter p ∧
      splitterAt s.mCentralOrientation (dockWindow s t (some a) z).2.mCentralSplitter p =
        some (po,
          if placesBefore z = true then pre ++ Widget.window t :: Widget.window a :: post
          else pre ++ Widget.window a :: Widget.window t :: post) := by
  obtain ⟨po2, ch2, hp2, hget⟩ := locateIn_spec a _ s.mCentralOrientation p i ha
  rw [hp] at hp2
  obtain ⟨rfl, rfl⟩ := Prod.mk.inj (Option.some.inj hp2)
  obtain ⟨pre, post, hch, hlen⟩ := split_at_located hget
  have htl := not_mem_leaves_of_I2 h2 ht
  refine ⟨pre, post, hch, hlen, ?_⟩
  rw [dockWindow_anchor ht hz ha]
  have htree : dockAt s.mCentralOrientation s.mCentralSplitter p i t a z =
      modifyAt (fun _ =>
        if placesBefore z = true then pre ++ Widget.window t :: Widget.window a :: post
        else pre ++ Widget.window a :: Widget.window t :: post) s.mCentralSplitter p := by
    rw [dockAt_same_axis htl hp hz hax]
    apply modifyAt_congr _ _ p _ _ po ch hp
    rw [hch, ← hlen]
    by_cases hb : placesBefore z = true
    · simp only [hb, if_true]; exact insertWidget_before pre post _ _
    · simp only [hb]; exact insertWidget_after pre post _ _
  refine ⟨rfl, rfl, htree, ?_⟩
  show splitterAt s.mCentralOrientation
    (dockAt s.mCentralOrientation s.mCentralSplitter p i t a z) p = _
  rw [htree]
  exact splitterAt_modifyAt _ p _ _ po ch hp

/-- Witness for C5 (scenario 2): the horizontal root holds `[A]`; docking B to the right
of A gives `[A, B]`. -/
theorem same_axis_insertion_witness :
    I2 scenario1 ∧ isEdgeZone CM_WINDROP_RIGHT = true ∧ scenario1.isDocked 2 = false ∧
      locateIn 1 scenario1.mCentralSplitter = some ([], 0) ∧
      splitterAt scenario1.mCentralOrientation scenario1.mCentralSplitter [] =
        some (Orientation.Horizontal, [Widget.window 1]) ∧
      Orientation.Horizontal = naturalAxis CM_WINDROP_RIGHT ∧
      (dockWindow scenario1 2 (some 1) CM_WINDROP_RIGHT).2.mCentralSplitter =
        [Widget.window 1, Widget.window 2] ∧
      ∃ pre post, [Widget.window 1] = pre ++ Widget.window 1 :: post ∧ pre.length = 0 ∧
        (dockWindow scenario1 2 (some 1) CM_WINDROP_RIGHT).1 = Outcome.returned ∧
        (dockWindow scenario1 2 (some 1) CM_WINDROP_RIGHT).2.mCentralOrientation =
          scenario1.mCentralOrientation ∧
        (dockWindow scenario1 2 (some 1) CM_WINDROP_RIGHT).2.mCentralSplitter =
          modifyAt (fun _ =>
            if placesBefore CM_WINDROP_RIGHT = true then
              pre ++ Widget.window 2 :: Widget.window 1 :: post
            else pre ++ Widget.window 1 :: Widget.window 2 :: post)
            scenario1.mCentralSplitter [] ∧
        splitterAt scenario1.mCentralOrientation
            (dockWindow scenario1 2 (some 1) CM_WINDROP_RIGHT).2.mCentralSplitter [] =
          some (Orientation.Horizontal,
            if placesBefore CM_WINDROP_RIGHT = true then
              pre ++ Widget.window 2 :: Widget.window 1 :: post
            else pre ++ Widget.window 1 :: Widget.window 2 :: post) :=
  ⟨by decide, by decide, by decide, by decide, rfl, by decide, rfl,
    same_axis_insertion scenario1 (by decide) 2 1 CM_WINDROP_RIGHT (by decide) (by decide)
      [] 0 Orientation.Horizontal [Widget.window 1] (by decide) rfl (by decide)⟩

/-- C4 (cross-axis insertion): in a state satisfying I2, for a target that is not
registered, an anchor sitting at index `i` of the splitter at path `p` whose orientation
differs from the zone's natural axis, `dockWindow(target, anchor, zone)` returns normally
and puts, in the anchor's place in the child sequence `pre ++ anchor :: post`, a new
splitter along the zone's natural axis whose children are `[target, anchor]` (left, top)
or `[anchor, target]` (right, bottom); `pre`, `post` and the rest of the tree are
unchanged. -/
theorem cross_axis_insertion (s : WindowDockManager) (h2 : I2 s) (t a : Nat)
    (z : WindowDragDropLocation) (hz : isEdgeZone z = true) (ht : s.isDocked t = false)
    (p : List Nat) (i : Nat) (po : Orientation) (ch : List Widget)
    (ha : locateIn a s.mCentralSplitter = some (p, i))
    (hp : splitterAt s.mCentralOrientation s.mCentralSplitter p = some (po, ch))
    (hax : po ≠ naturalAxis z) :
    ∃ pre post, ch = pre ++ Widget.window a :: post ∧ pre.length = i ∧
      (dockWindow s t (some a) z).1 = Outcome.returned ∧
      (dockWindow s t (some a) z).2.mCentralOrientation = s.mCentralOrientation ∧
      (dockWindow s t (some a) z).2.mCentralSplitter =
        modifyAt (fun _ =>
          pre ++ Widget.splitter (naturalAxis z)
            (if placesBefore z = true then [Widget.window t, Widget.window a]
              else [Widget.window a, Widget.window t]) :: post) s.mCentralSplitter p ∧
      splitterAt s.mCentralOrientation (dockWindow s t (some a) z).2.mCentralSplitter p =
        some (po,
          pre ++ Widget.splitter (naturalAxis z)
            (if placesBefore z = true then [Widget.window t, Widget.window a]
              else [Widget.window a, Widget.window t]) :: post) := by
  obtain ⟨po2, ch2, hp2, hget⟩ := locateIn_spec a _ s.mCentralOrientation p i ha
  rw [hp] at hp2
  obtain ⟨rfl, rfl⟩ := Prod.mk.inj (Option.some.inj hp2)
  obtain ⟨pre, post, hch, hlen⟩ := split_at_located hget
  have htl := not_mem_leaves_of_I2 h2 ht
  refine ⟨pre, post, hch, hlen, ?_⟩
  rw [dockWindow_anchor ht hz ha]
  have htree : dockAt s.mCentralOrientation s.mCentralSplitter p i t a z =
      modifyAt (fun _ =>
        pre ++ Widget.splitter (naturalAxis z)
          (if placesBefore z = true then [Widget.window t, Widget.window a]
            else [Widget.window a, Widget.window t]) :: post) s.mCentralSplitter p := by
    rw [dockAt_cross_axis htl ha hp hz hax]
    apply modifyAt_congr _ _ p _ _ po ch hp
    rw [hch, ← hlen]
    exact set_at_located pre post _ _
  refine ⟨rfl, rfl, htree, ?_⟩
  show splitterAt s.mCentralOrientation
    (dockAt s.mCentralOrientation s.mCentralSplitter p i t a z) p = _
  rw [htree]
  exact splitterAt_modifyAt _ p _ _ po ch hp

/-- Witness for C4 (scenario 3): the horizontal root holds `[A, B]`; docking C on top
of A gives `[V[C, A], B]`. -/
theorem cross_axis_insertion_witness :
    I2 scenario2 ∧ isEdgeZone CM_WINDROP_TOP = true ∧ scenario2.isDocked 3 = false ∧
      locateIn 1 scenario2.mCentralSplitter = some ([], 0) ∧
      splitterAt scenario2.mCentralOrientation scenario2.mCentralSplitter [] =
        some (Orientation.Horizontal, [Widget.window 1, Widget.window 2]) ∧
      Orientation.Horizontal ≠ naturalAxis CM_WINDROP_TOP ∧
      (dockWindow scenario2 3 (some 1) CM_WINDROP_TOP).2.mCentralSplitter =
        [Widget.splitter Orientation.Vertical [Widget.window 3, Widget.window 1],
          Widget.window 2] ∧
      ∃ pre post, [Widget.window 1, Widget.window 2] = pre ++ Widget.window 1 :: post ∧
        pre.length = 0 ∧
        (dockWindow scenario2 3 (some 1) CM_WINDROP_TOP).1 = Outcome.returned ∧
        (dockWindow scenario2 3 (some 1) CM_WINDROP_TOP).2.mCentralOrientation =
          scenario2.mCentralOrientation ∧
        (dockWindow scenario2 3 (some 1) CM_WINDROP_TOP).2.mCentralSplitter =
          modifyAt (fun _ =>
            pre ++ Widget.splitter (naturalAxis CM_WINDROP_TOP)
              (if placesBefore CM_WINDROP_TOP = true then [Widget.window 3, Widget.window 1]
                else [Widget.window 1, Widget.window 3]) :: post)
            scenario2.mCentralSplitter [] ∧
        splitterAt scenario2.mCentralOrientation
            (dockWindow scenario2 3 (some 1) CM_WINDROP_TOP).2.mCentralSplitter [] =
          some (Orientation.Horizontal,
            pre ++ Widget.splitter (naturalAxis CM_WINDROP_TOP)
              (if placesBefore CM_WINDROP_TOP = true then [Widget.window 3, Widget.window 1]
                else [Widget.window 1, Widget.window 3]) :: post) :=
  ⟨by decide, by decide, by decide, by decide, rfl, by decide, rfl,
    cross_axis_insertion scenario2 (by decide) 3 1 CM_WINDROP_TOP (by decide) (by decide)
      [] 0 Orientation.Horizontal [Widget.window 1, Widget.window 2] (by decide) rfl
      (by decide)⟩

/-- C6 (undock and collapse): in a state satisfying I2, a registered target is the child
at index `i` of a splitter at path `p`, and `undockWindow(target)` returns normally,
erases the registry entry and takes the target out of that splitter.  If the splitter is
not the root and keeps exactly one child `r`, the splitter itself is replaced, at its
index in the child sequence of its own parent, by `r`; otherwise the tree is the old one
with the target erased from its parent.  Nothing else in the tree changes. -/
theorem undock_and_collapse (s : WindowDockManager) (h2 : I2 s) (t : Nat)
    (ht : s.isDocked t = true) :
    ∃ (p : List Nat) (i : Nat) (po : Orientation) (pre post : List Widget),
      locateIn t s.mCentralSplitter = some (p, i) ∧ pre.length = i ∧
      splitterAt s.mCentralOrientation s.mCentralSplitter p =
        some (po, pre ++ Widget.window t :: post) ∧
      (undockWindow s t).1 = Outcome.returned ∧
      (undockWindow s t).2.mDockedWindows = mapErase t s.mDockedWindows ∧
      (undockWindow s t).2.isDocked t = false ∧
      (undockWindow s t).2.mCentralOrientation = s.mCentralOrientation ∧
      (∀ r, p ≠ [] → pre ++ post = [r] →
        ∃ qo tpre tpost, tpre.length = p.getLast?.getD 0 ∧
          splitterAt s.mCentralOrientation s.mCentralSplitter p.dropLast =
            some (qo, tpre ++ Widget.splitter po (pre ++ Widget.window t :: post) :: tpost) ∧
          (undockWindow s t).2.mCentralSplitter =
            modifyAt (fun _ => tpre ++ r :: tpost) s.mCentralSplitter p.dropLast) ∧
      ((p = [] ∨ (pre ++ post).length ≠ 1) →
        (undockWindow s t).2.mCentralSplitter =
          modifyAt (fun _ => pre ++ post) s.mCentralSplitter p) := by
  obtain ⟨p, i, hl⟩ := located_of_I2 h2 ht
  obtain ⟨po, ch, hp, hget⟩ := locateIn_spec t _ s.mCentralOrientation p i hl
  obtain ⟨pre, post, hch, hlen⟩ := split_at_located hget
  subst hch
  have her : (pre ++ Widget.window t :: post).eraseIdx i = pre ++ post := by
    rw [← hlen]; exact eraseIdx_at_located pre post _
  refine ⟨p, i, po, pre, post, hl, hlen, hp, ?_⟩
  rw [undockWindow_located hl ht]
  refine ⟨rfl, rfl, ?_, rfl, ?_, ?_⟩
  · simp only [WindowDockManager.isDocked]
    exact lookup_mapErase t _
  · intro r hne hr
    have hp1 := hp
    rw [path_snoc hne] at hp1
    obtain ⟨qo, tch, hq, hk⟩ := splitterAt_snoc_inv hp1
    obtain ⟨tpre, tpost, htch, htlen⟩ := split_at_located hk
    subst htch
    refine ⟨qo, tpre, tpost, htlen, hq, ?_⟩
    show undockTree s.mCentralOrientation s.mCentralSplitter p i = _
    have hund := undockTree_collapse (i := i) hq hk (her.trans hr)
    rw [← path_snoc hne] at hund
    rw [hund]
    apply modifyAt_congr _ _ _ _ _ qo _ hq
    rw [← htlen]
    exact set_at_located tpre tpost _ _
  · intro hcase
    show undockTree s.mCentralOrientation s.mCentralSplitter p i = _
    rw [undockTree_plain hp (by rw [her]; exact hcase)]
    exact modifyAt_congr _ _ p _ _ po _ hp her

/-- Witness for C6 (scenario 4): undocking C from `[V[C, A], B]` leaves the vertical
splitter with the single child A, so the splitter is replaced by A and the root holds
`[A, B]` again. -/
theorem undock_and_collapse_witness :
    I2 scenario3 ∧ scenario3.isDocked 3 = true ∧
      (undockWindow scenario3 3).2.mCentralSplitter = [Widget.window 1, Widget.window 2] ∧
      ∃ (p : List Nat) (i : Nat) (po : Orientation) (pre post : List Widget),
        locateIn 3 scenario3.mCentralSplitter = some (p, i) ∧ pre.length = i ∧
        splitterAt scenario3.mCentralOrientation scenario3.mCentralSplitter p =
          some (po, pre ++ Widget.window 3 :: post) ∧
        (undockWindow scenario3 3).1 = Outcome.returned ∧
        (undockWindow scenario3 3).2.mDockedWindows = mapErase 3 scenario3.mDockedWindows ∧
        (undockWindow scenario3 3).2.isDocked 3 = false ∧
        (undockWindow scenario3 3).2.mCentralOrientation = scenario3.mCentralOrientation ∧
        (∀ r, p ≠ [] → pre ++ post = [r] →
          ∃ qo tpre tpost, tpre.length = p.getLast?.getD 0 ∧
            splitterAt scenario3.mCentralOrientation scenario3.mCentralSplitter p.dropLast =
              some (qo,
                tpre ++ Widget.splitter po (pre ++ Widget.window 3 :: post) :: tpost) ∧
            (undockWindow scenario3 3).2.mCentralSplitter =
              modifyAt (fun _ => tpre ++ r :: tpost) scenario3.mCentralSplitter p.dropLast) ∧
        ((p = [] ∨ (pre ++ post).length ≠ 1) →
          (undockWindow scenario3 3).2.mCentralSplitter =
            modifyAt (fun _ => pre ++ post) scenario3.mCentralSplitter p) :=
  ⟨by decide, by decide, rfl, undock_and_collapse scenario3 (by decide) 3 (by decide)⟩

/-- C3 (P4, dock and undock round trip): in a state satisfying I1 and I2, for a docked
window B, a window A that is not docked and a zone among left, right, top, bottom,
`dockWindow(A, B, zone)` followed by `undockWindow(A)` returns normally both times and
ends in a state whose splitter tree (every child sequence and orientation) and whose
registry are those before the dock, whether the insertion was same-axis or cross-axis. -/
theorem dock_undock_round_trip (s : WindowDockManager) (h1 : I1 s) (h2 : I2 s) (A B : Nat)
    (z : WindowDragDropLocation) (hz : isEdgeZone z = true) (hB : s.isDocked B = true)
    (hA : s.isDocked A = false) :
    (dockWindow s A (some B) z).1 = Outcome.returned ∧
      (undockWindow (dockWindow s A (some B) z).2 A).1 = Outcome.returned ∧
      (undockWindow (dockWindow s A (some B) z).2 A).2.mCentralSplitter = s.mCentralSplitter ∧
      (undockWindow (dockWindow s A (some B) z).2 A).2.mCentralOrientation =
        s.mCentralOrientation ∧
      (undockWindow (dockWindow s A (some B) z).2 A).2.mDockedWindows = s.mDockedWindows := by
  obtain ⟨p, i, hl⟩ := located_of_I2 h2 hB
  obtain ⟨po, ch, hp, hget⟩ := locateIn_spec B _ s.mCentralOrientation p i hl
  obtain ⟨pre, post, hch, hlen⟩ := split_at_located hget
  subst hch
  have hAl := not_mem_leaves_of_I2 h2 hA
  have hAch : A ∉ leavesList (pre ++ Widget.window B :: post) :=
    fun hc => hAl (mem_leaves_of_splitterAt hp hc)
  simp only [leavesList_append, leavesList_window, List.mem_append, List.mem_cons,
    not_or] at hAch
  have hnd := noDegenerate_splitterAt p _ _ po _ hp h1
  have hreg : mapErase A (mapAssign A { dockLocation := z, parentId := (B : Int) }
      s.mDockedWindows) = s.mDockedWindows :=
    mapErase_mapAssign A _ _ ((isDocked_eq_false_iff s A).mp hA)
  have hdocked : ∀ (cs : List Widget) (fl : List Nat),
      WindowDockManager.isDocked
        { s with
          mCentralSplitter := cs
          windowFlags := fl
          mDockedWindows :=
            mapAssign A { dockLocation := z, parentId := (B : Int) } s.mDockedWindows } A
        = true := by
    intro cs fl
    simp [WindowDockManager.isDocked, lookup_mapAssign]
  rw [dockWindow_anchor hA hz hl]
  refine ⟨rfl, ?_⟩
  by_cases hax : po = naturalAxis z
  · -- same axis: the window sits in the anchor's parent, at index `k`
    rw [dockAt_same_axis hAl hp hz hax]
    have hk : ∃ k, k ≤ (pre ++ Widget.window B :: post).length ∧
        (if placesBefore z = true then i else i + 1) = k ∧
        A ∉ leavesList ((pre ++ Widget.window B :: post).take k) := by
      refine ⟨_, ?_, rfl, ?_⟩
      · split <;> simp <;> omega
      · intro hc
        have : A ∈ leavesList (pre ++ Widget.window B :: post) := by
          rw [leavesList_take_drop (if placesBefore z = true then i else i + 1)]
          exact List.mem_append_left _ hc
        simp only [leavesList_append, leavesList_window, List.mem_append, List.mem_cons] at this
        tauto
    obtain ⟨k, hkle, hkeq, hknot⟩ := hk
    rw [hkeq]
    have hloc : locateIn A (modifyAt (insertWidget k (Widget.window A)) s.mCentralSplitter p) =
        some (p, k) := by
      have := locateIn_modifyAt A (insertWidget k (Widget.window A)) [] k p
        s.mCentralOrientation s.mCentralSplitter po _ hp hAl (by
          unfold insertWidget
          rw [if_pos hkle]
          have := locateIn_append_window A ((pre ++ Widget.window B :: post).drop k) _ hknot
          rw [this, List.length_take, Nat.min_eq_left hkle])
      simpa using this
    rw [undockWindow_located hloc (hdocked _ _)]
    refine ⟨rfl, ?_, rfl, hreg⟩
    show undockTree s.mCentralOrientation
      (modifyAt (insertWidget k (Widget.window A)) s.mCentralSplitter p) p k = _
    have hp1 := splitterAt_modifyAt (insertWidget k (Widget.window A)) p _ _ po _ hp
    have her := eraseIdx_insertWidget k (Widget.window A) _ hkle
    rw [undockTree_plain hp1 (by
      rw [her]
      by_cases hroot : p = []
      · exact Or.inl hroot
      · right
        have := hnd.2 hroot
        omega)]
    rw [modifyAt_modifyAt]
    exact modifyAt_of_fix _ p _ _ po _ hp her
  · -- cross axis: the window sits in the new splitter that took the anchor's place
    rw [dockAt_cross_axis hAl hl hp hz hax]
    have hAB : ¬ B = A := by
      intro e
      exact hAch.2.1 e.symm
    have hsub : ∃ (j : Nat) (sub : List Widget),
        (if placesBefore z = true then [Widget.window A, Widget.window B]
          else [Widget.window B, Widget.window A]) = sub ∧
        locateIn A sub = some ([], j) ∧ sub.eraseIdx j = [Widget.window B] := by
      by_cases hb : placesBefore z = true
      · exact ⟨0, _, rfl, by simp [hb], by simp [hb]⟩
      · exact ⟨1, _, rfl, by simp [hb, hAB, shiftRight], by simp [hb]⟩
    obtain ⟨j, sub, hsubeq, hsubloc, hsuber⟩ := hsub
    rw [hsubeq]
    have hset : ∀ S : Widget, (pre ++ Widget.window B :: post).set i S = pre ++ S :: post := by
      intro S
      rw [← hlen]
      exact set_at_located pre post _ S
    have hloc : locateIn A
        (modifyAt (fun ch => ch.set i (Widget.splitter (naturalAxis z) sub))
          s.mCentralSplitter p) = some (p ++ [i], j) := by
      apply locateIn_modifyAt A _ [i] j p s.mCentralOrientation s.mCentralSplitter po _ hp hAl
      rw [hset, ← hlen]
      exact locateIn_append_splitter A _ sub [] j hsubloc post pre hAch.1
    rw [undockWindow_located hloc (hdocked _ _)]
    refine ⟨rfl, ?_, rfl, hreg⟩
    show undockTree s.mCentralOrientation
      (modifyAt (fun ch => ch.set i (Widget.splitter (naturalAxis z) sub))
        s.mCentralSplitter p) (p ++ [i]) j = _
    have hp1 := splitterAt_modifyAt
      (fun ch => ch.set i (Widget.splitter (naturalAxis z) sub)) p _ _ po _ hp
    have hk1 : ((pre ++ Widget.window B :: post).set i
        (Widget.splitter (naturalAxis z) sub))[i]? =
        some (Widget.splitter (naturalAxis z) sub) := by
      rw [hset, ← hlen, List.getElem?_append_right (Nat.le_refl _)]
      simp
    rw [undockTree_collapse hp1 hk1 hsuber, modifyAt_modifyAt]
    apply modifyAt_of_fix _ p _ _ po _ hp
    rw [List.set_set, hset]

/-- Witness for C3: scenario 2 and a round trip of window C on top of A, which is
cross-axis and goes through the new vertical splitter and its collapse. -/
theorem dock_undock_round_trip_witness :
    I1 scenario2 ∧ I2 scenario2 ∧ isEdgeZone CM_WINDROP_TOP = true ∧
      scenario2.isDocked 1 = true ∧ scenario2.isDocked 3 = false ∧
      ((dockWindow scenario2 3 (some 1) CM_WINDROP_TOP).1 = Outcome.returned ∧
        (undockWindow (dockWindow scenario2 3 (some 1) CM_WINDROP_TOP).2 3).1 =
          Outcome.returned ∧
        (undockWindow (dockWindow scenario2 3 (some 1) CM_WINDROP_TOP).2 3).2.mCentralSplitter =
          scenario2.mCentralSplitter ∧
        (undockWindow (dockWindow scenario2 3 (some 1) CM_WINDROP_TOP).2 3).2.mCentralOrientation =
          scenario2.mCentralOrientation ∧
        (undockWindow (dockWindow scenario2 3 (some 1) CM_WINDROP_TOP).2 3).2.mDockedWindows =
          scenario2.mDockedWindows) :=
  ⟨by decide, by decide, by decide, by decide, by decide,
    dock_undock_round_trip scenario2 (by decide) (by decide) 3 1 CM_WINDROP_TOP (by decide)
      (by decide) (by decide)⟩

/-- C11 (none and centre are no-ops): for a target that is not registered, every anchor,
present or absent, and the zone `CM_WINDROP_NONE` or `CM_WINDROP_CENTER`, `dockWindow`
returns normally and leaves the manager, tree and registry included, as it was; the
target stays undocked. -/
theorem dock_none_center_noop (s : WindowDockManager) (t : Nat) (a : Option Nat)
    (z : WindowDragDropLocation) (ht : s.isDocked t = false)
    (hz : z = CM_WINDROP_NONE ∨ z = CM_WINDROP_CENTER) :
    dockWindow s t a z = (Outcome.returned, s) ∧
      (dockWindow s t a z).2.mCentralSplitter = s.mCentralSplitter ∧
      (dockWindow s t a z).2.mDockedWindows = s.mDockedWindows ∧
      (dockWindow s t a z).2.isDocked t = false := by
  have hne : isEdgeZone z = false := by
    rcases hz with h | h <;> rw [h] <;> rfl
  rw [dockWindow_of_not_edge ht a hne]
  exact ⟨rfl, rfl, rfl, ht⟩

/-- Witness for C11: docking C at the centre of A in scenario 2. -/
theorem dock_none_center_noop_witness :
    scenario2.isDocked 3 = false ∧
      (CM_WINDROP_CENTER = CM_WINDROP_NONE ∨ CM_WINDROP_CENTER = CM_WINDROP_CENTER) ∧
      (dockWindow scenario2 3 (some 1) CM_WINDROP_CENTER = (Outcome.returned, scenario2) ∧
        (dockWindow scenario2 3 (some 1) CM_WINDROP_CENTER).2.mCentralSplitter =
          scenario2.mCentralSplitter ∧
        (dockWindow scenario2 3 (some 1) CM_WINDROP_CENTER).2.mDockedWindows =
          scenario2.mDockedWindows ∧
        (dockWindow scenario2 3 (some 1) CM_WINDROP_CENTER).2.isDocked 3 = false) :=
  ⟨by decide, by decide,
    dock_none_center_noop scenario2 3 (some 1) CM_WINDROP_CENTER (by decide) (by decide)⟩

/-! ### Leaf order -/

theorem erase_middle (w : Nat) (A B : List Nat) (h : w ∉ A) :
    (A ++ w :: B).erase w = A ++ B := by
  induction A with
  | nil => simp
  | cons x A ih =>
    simp only [List.mem_cons, not_or] at h
    have hx : ¬ x = w := fun e => h.1 e.symm
    simp [List.erase_cons, hx, ih h.2]

/-- The leaves after docking next to a located anchor: the window comes right before
the anchor (left, top) or right after it (right, bottom). -/
theorem dockAt_leaves_at_anchor {o : Orientation} {cs : List Widget} {p : List Nat}
    {i t a : Nat} {z : WindowDragDropLocation} (ht : t ∉ leavesList cs)
    (ha : locateIn a cs = some (p, i)) (hz : isEdgeZone z = true) :
    ∃ A B, leavesList cs = A ++ a :: B ∧
      leavesList (dockAt o cs p i t a z) =
        if placesBefore z = true then A ++ t :: a :: B else A ++ a :: t :: B := by
  obtain ⟨po, ch, hp, hget⟩ := locateIn_spec a cs o p i ha
  obtain ⟨pre, post, hch, hlen⟩ := split_at_located hget
  subst hch
  obtain ⟨L, R, h1, h2⟩ := leaves_modifyAt p o cs po _ hp
  refine ⟨L ++ leavesList pre, leavesList post ++ R, by simp [h1], ?_⟩
  by_cases hax : po = naturalAxis z
  · rw [dockAt_same_axis ht hp hz hax, h2, ← hlen]
    by_cases hb : placesBefore z = true
    · simp only [hb, if_true]
      rw [insertWidget_before]
      simp
    · have hb2 : placesBefore z = false := by simpa using hb
      simp only [hb2, Bool.false_eq_true, if_false]
      rw [insertWidget_after]
      simp
  · rw [dockAt_cross_axis ht ha hp hz hax, h2, ← hlen, set_at_located]
    by_cases hb : placesBefore z = true
    · simp [hb]
    · simp [hb]

/-- C18 (leaf order is preserved): in a state satisfying I1 and I2, docking a window `t`
that is not registered at a docked anchor `a` in a zone among left, right, top, bottom
gives the left-to-right leaf sequence of before with `t` right before `a` (left, top) or
right after `a` (right, bottom), same-axis and cross-axis alike; undocking a registered
window `u` gives the leaf sequence of before with `u` erased, with or without a
collapse. -/
theorem leaf_order_preserved (s : WindowDockManager) (h1 : I1 s) (h2 : I2 s) (t a : Nat)
    (z : WindowDragDropLocation) (hz : isEdgeZone z = true) (ht : s.isDocked t = false)
    (ha : s.isDocked a = true) (u : Nat) (hu : s.isDocked u = true) :
    (∃ A B, leavesList s.mCentralSplitter = A ++ a :: B ∧
      leavesList (dockWindow s t (some a) z).2.mCentralSplitter =
        if placesBefore z = true then A ++ t :: a :: B else A ++ a :: t :: B) ∧
      leavesList (undockWindow s u).2.mCentralSplitter =
        (leavesList s.mCentralSplitter).erase u := by
  have _ := h1
  constructor
  · obtain ⟨p, i, hl⟩ := located_of_I2 h2 ha
    rw [dockWindow_anchor ht hz hl]
    exact dockAt_leaves_at_anchor (not_mem_leaves_of_I2 h2 ht) hl hz
  · obtain ⟨p, i, hl⟩ := located_of_I2 h2 hu
    rw [undockWindow_located hl hu]
    obtain ⟨A, B, hA, hB⟩ :=
      undockTree_leaves (o := s.mCentralOrientation) hl
    show leavesList (undockTree s.mCentralOrientation s.mCentralSplitter p i) = _
    rw [hA, hB]
    have hnd := h2.2.2
    rw [hB] at hnd
    have hnot : u ∉ A := by
      intro hc
      have := List.nodup_append.mp hnd
      exact this.2.2 hc (List.mem_cons_self u B)
    exact (erase_middle u A B hnot).symm

/-- Witness for C18: in scenario 3, whose leaves are C, A, B, docking window 4 below A
(same axis) gives C, A, 4, B and undocking C gives A, B (with a collapse). -/
theorem leaf_order_preserved_witness :
    I1 scenario3 ∧ I2 scenario3 ∧ isEdgeZone CM_WINDROP_BOTTOM = true ∧
      scenario3.isDocked 4 = false ∧ scenario3.isDocked 1 = true ∧
      scenario3.isDocked 3 = true ∧
      leavesList (dockWindow scenario3 4 (some 1) CM_WINDROP_BOTTOM).2.mCentralSplitter =
        [3, 1, 4, 2] ∧
      ((∃ A B, leavesList scenario3.mCentralSplitter = A ++ 1 :: B ∧
        leavesList (dockWindow scenario3 4 (some 1) CM_WINDROP_BOTTOM).2.mCentralSplitter =
          if placesBefore CM_WINDROP_BOTTOM = true then A ++ 4 :: 1 :: B
          else A ++ 1 :: 4 :: B) ∧
        leavesList (undockWindow scenario3 3).2.mCentralSplitter =
          (leavesList scenario3.mCentralSplitter).erase 3) :=
  ⟨by decide, by decide, by decide, by decide, by decide, by decide, by decide,
    leaf_order_preserved scenario3 (by decide) (by decide) 4 1 CM_WINDROP_BOTTOM (by decide)
      (by decide) (by decide) 3 (by decide)⟩

/-- C19 (the tree is not kept fully flattened): the calls dock A, dock C below A, dock B
right of A, undock C, made on the freshly constructed manager, end in a reachable state
whose horizontal root holds the single child `Horizontal[A, B]`, a splitter other than
the root with the orientation of its parent. -/
theorem tree_not_flattened :
    ∃ s : WindowDockManager,
      s = (undockWindow (dockWindow (dockWindow
            (dockWindow WindowDockManager.init 1 none CM_WINDROP_LEFT).2
            3 (some 1) CM_WINDROP_BOTTOM).2 2 (some 1) CM_WINDROP_RIGHT).2 3).2 ∧
      Reachable s ∧
      s.mCentralOrientation = Orientation.Horizontal ∧
      s.mCentralSplitter =
        [Widget.splitter Orientation.Horizontal [Widget.window 1, Widget.window 2]] ∧
      ∃ (p : List Nat) (k : Nat) (qo po : Orientation) (tch ch : List Widget),
        splitterAt s.mCentralOrientation s.mCentralSplitter p = some (qo, tch) ∧
        tch[k]? = some (Widget.splitter po ch) ∧ po = qo :=
  ⟨_, rfl,
    Reachable.undock _ 3 (Reachable.dock _ 2 (some 1) CM_WINDROP_RIGHT
      (Reachable.dock _ 3 (some 1) CM_WINDROP_BOTTOM
        (Reachable.dock _ 1 none CM_WINDROP_LEFT Reachable.init))),
    rfl, rfl, [], 0, Orientation.Horizontal, Orientation.Horizontal, _, _, rfl, rfl, rfl⟩

/-! ### Polygons -/

theorem scaled_le (d a b : Int) (hd : 0 < d) : d * a ≤ b * d ↔ a ≤ b := by
  constructor
  · intro h
    by_contra hc
    have : b + 1 ≤ a := by omega
    nlinarith
  · intro h
    nlinarith

theorem isect_horizontal (p1 p2 pos : Int × Int) (w : Int) (h : p1.2 = p2.2) :
    qt_polygon_isect_line p1 p2 pos w = w := by
  simp [qt_polygon_isect_line, h]

/-- A vertical edge counts when the row of the position meets its span and the edge is
at or left of the position. -/
theorem isect_vertical (p1 p2 pos : Int × Int) (w : Int) (h : p1.1 = p2.1) :
    qt_polygon_isect_line p1 p2 pos w =
      w + (if p1.2 < p2.2 ∧ p1.2 ≤ pos.2 ∧ pos.2 < p2.2 ∧ p1.1 ≤ pos.1 then 1
        else if p2.2 < p1.2 ∧ p2.2 ≤ pos.2 ∧ pos.2 < p1.2 ∧ p1.1 ≤ pos.1 then -1 else 0) := by
  unfold qt_polygon_isect_line
  by_cases h1 : p1.2 = p2.2
  · rw [if_pos h1, if_neg (by omega), if_neg (by omega)]; omega
  · rw [if_neg h1]
    by_cases h2 : p2.2 < p1.2
    · rw [if_pos h2]
      have e : p1.1 - p2.1 = 0 := by omega
      rw [e, Int.zero_mul]
      have hk : (0 ≤ (pos.1 - p2.1) * (p1.2 - p2.2)) ↔ p2.1 ≤ pos.1 := by
        have := scaled_le (p1.2 - p2.2) 0 (pos.1 - p2.1) (by omega)
        rw [Int.mul_zero] at this
        rw [this]; omega
      simp only [hk]
      split_ifs <;> omega
    · rw [if_neg h2]
      have e : p2.1 - p1.1 = 0 := by omega
      rw [e, Int.zero_mul]
      have hk : (0 ≤ (pos.1 - p1.1) * (p2.2 - p1.2)) ↔ p1.1 ≤ pos.1 := by
        have := scaled_le (p2.2 - p1.2) 0 (pos.1 - p1.1) (by omega)
        rw [Int.mul_zero] at this
        rw [this]; omega
      simp only [hk]
      split_ifs <;> omega

/-- An edge that goes right as it goes down counts when the row of the position meets
its span and the point of the edge on that row is at or left of the position. -/
theorem isect_diag_pos (p1 p2 pos : Int × Int) (w : Int) (h : p2.1 - p1.1 = p2.2 - p1.2) :
    qt_polygon_isect_line p1 p2 pos w =
      w + (if p1.2 < p2.2 ∧ p1.2 ≤ pos.2 ∧ pos.2 < p2.2 ∧ p1.1 + (pos.2 - p1.2) ≤ pos.1 then 1
        else if p2.2 < p1.2 ∧ p2.2 ≤ pos.2 ∧ pos.2 < p1.2 ∧ p1.1 + (pos.2 - p1.2) ≤ pos.1
          then -1 else 0) := by
  unfold qt_polygon_isect_line
  by_cases h1 : p1.2 = p2.2
  · rw [if_pos h1, if_neg (by omega), if_neg (by omega)]; omega
  · rw [if_neg h1]
    by_cases h2 : p2.2 < p1.2
    · rw [if_pos h2]
      have e : p1.1 - p2.1 = p1.2 - p2.2 := by omega
      rw [e]
      simp only [scaled_le _ _ _ (show 0 < p1.2 - p2.2 by omega)]
      split_ifs <;> omega
    · rw [if_neg h2]
      rw [h]
      simp only [scaled_le _ _ _ (show 0 < p2.2 - p1.2 by omega)]
      split_ifs <;> omega

/-- An edge that goes left as it goes down counts when the row of the position meets
its span and the point of the edge on that row is at or left of the position. -/
theorem isect_diag_neg (p1 p2 pos : Int × Int) (w : Int)
    (h : p2.1 - p1.1 = -(p2.2 - p1.2)) :
    qt_polygon_isect_line p1 p2 pos w =
      w + (if p1.2 < p2.2 ∧ p1.2 ≤ pos.2 ∧ pos.2 < p2.2 ∧ p1.1 - (pos.2 - p1.2) ≤ pos.1 then 1
        else if p2.2 < p1.2 ∧ p2.2 ≤ pos.2 ∧ pos.2 < p1.2 ∧ p1.1 - (pos.2 - p1.2) ≤ pos.1
          then -1 else 0) := by
  unfold qt_polygon_isect_line
  by_cases h1 : p1.2 = p2.2
  · rw [if_pos h1, if_neg (by omega), if_neg (by omega)]; omega
  · rw [if_neg h1]
    by_cases h2 : p2.2 < p1.2
    · rw [if_pos h2]
      have e : (p1.1 - p2.1) * (pos.2 - p2.2) = (p1.2 - p2.2) * (-(pos.2 - p2.2)) := by
        have : p1.1 - p2.1 = -(p1.2 - p2.2) := by omega
        rw [this]; ring
      rw [e]
      simp only [scaled_le _ _ _ (show 0 < p1.2 - p2.2 by omega)]
      split_ifs <;> omega
    · rw [if_neg h2]
      have e : (p2.1 - p1.1) * (pos.2 - p1.2) = (p2.2 - p1.2) * (-(pos.2 - p1.2)) := by
        rw [h]; ring
      rw [e]
      simp only [scaled_le _ _ _ (show 0 < p2.2 - p1.2 by omega)]
      split_ifs <;> omega

/-- The test `containsPoint` on a polygon of four points whose last point differs from
the first: the parity of the winding number after the four edges. -/
theorem containsPoint_quad (v0 v1 v2 v3 pos : Int × Int) (hne : v3 ≠ v0) :
    containsPoint [v0, v1, v2, v3] pos = true ↔
      ¬ (2 : Int) ∣ qt_polygon_isect_line v3 v0 pos
        (qt_polygon_isect_line v2 v3 pos
          (qt_polygon_isect_line v1 v2 pos (qt_polygon_isect_line v0 v1 pos 0))) := by
  simp only [containsPoint, isectPath, if_pos hne, ne_eq, decide_eq_true_eq]
  rw [Int.dvd_iff_tmod_eq_zero]

theorem isect_vertical_up (p1 p2 pos : Int × Int) (w : Int) (h : p1.1 = p2.1)
    (hlt : p1.2 < p2.2) :
    qt_polygon_isect_line p1 p2 pos w =
      w + (if p1.2 ≤ pos.2 ∧ pos.2 < p2.2 ∧ p1.1 ≤ pos.1 then 1 else 0) := by
  rw [isect_vertical p1 p2 pos w h]
  split_ifs <;> omega

theorem isect_vertical_down (p1 p2 pos : Int × Int) (w : Int) (h : p1.1 = p2.1)
    (hlt : p2.2 < p1.2) :
    qt_polygon_isect_line p1 p2 pos w =
      w + (if p2.2 ≤ pos.2 ∧ pos.2 < p1.2 ∧ p1.1 ≤ pos.1 then -1 else 0) := by
  rw [isect_vertical p1 p2 pos w h]
  split_ifs <;> omega

theorem isect_diag_pos_up (p1 p2 pos : Int × Int) (w : Int) (h : p2.1 - p1.1 = p2.2 - p1.2)
    (hlt : p1.2 < p2.2) :
    qt_polygon_isect_line p1 p2 pos w =
      w + (if p1.2 ≤ pos.2 ∧ pos.2 < p2.2 ∧ p1.1 + (pos.2 - p1.2) ≤ pos.1 then 1 else 0) := by
  rw [isect_diag_pos p1 p2 pos w h]
  split_ifs <;> omega

theorem isect_diag_pos_down (p1 p2 pos : Int × Int) (w : Int) (h : p2.1 - p1.1 = p2.2 - p1.2)
    (hlt : p2.2 < p1.2) :
    qt_polygon_isect_line p1 p2 pos w =
      w + (if p2.2 ≤ pos.2 ∧ pos.2 < p1.2 ∧ p1.1 + (pos.2 - p1.2) ≤ pos.1 then -1 else 0) := by
  rw [isect_diag_pos p1 p2 pos w h]
  split_ifs <;> omega

theorem isect_diag_neg_up (p1 p2 pos : Int × Int) (w : Int)
    (h : p2.1 - p1.1 = -(p2.2 - p1.2)) (hlt : p1.2 < p2.2) :
    qt_polygon_isect_line p1 p2 pos w =
      w + (if p1.2 ≤ pos.2 ∧ pos.2 < p2.2 ∧ p1.1 - (pos.2 - p1.2) ≤ pos.1 then 1 else 0) := by
  rw [isect_diag_neg p1 p2 pos w h]
  split_ifs <;> omega

theorem isect_diag_neg_down (p1 p2 pos : Int × Int) (w : Int)
    (h : p2.1 - p1.1 = -(p2.2 - p1.2)) (hlt : p2.2 < p1.2) :
    qt_polygon_isect_line p1 p2 pos w =
      w + (if p2.2 ≤ pos.2 ∧ pos.2 < p1.2 ∧ p1.1 - (pos.2 - p1.2) ≤ pos.1 then -1 else 0) := by
  rw [isect_diag_neg p1 p2 pos w h]
  split_ifs <;> omega

/-- The left band `[L.topLeft, L.bottomLeft, S.bottomLeft, S.topLeft]`, for a small
rectangle inset by the same positive amount on the left, top and bottom. -/
theorem left_contains (l t b sl st sb px py : Int) (ha : 0 < sl - l) (h1 : sl - l = st - t)
    (h2 : sl - l = b - sb) (hmid : st < sb) :
    containsPoint [(l, t), (l, b), (sl, sb), (sl, st)] (px, py) = true ↔
      l ≤ px ∧ t ≤ py ∧ py < b ∧ px - l < py - t ∧ px < sl ∧ px - l < b - py := by
  rw [containsPoint_quad _ _ _ _ _ (by simp; omega),
    isect_vertical_up (l, t) (l, b) _ _ rfl (by simp; omega),
    isect_diag_neg_down (l, b) (sl, sb) _ _ (by simp; omega) (by simp; omega),
    isect_vertical_down (sl, sb) (sl, st) _ _ rfl (by simp; omega),
    isect_diag_pos_down (sl, st) (l, t) _ _ (by simp; omega) (by simp; omega)]
  simp only
  split_ifs <;> omega

/-- The right band `[L.topRight, L.bottomRight, S.bottomRight, S.topRight]`. -/
theorem right_contains (r t b sr st sb px py : Int) (ha : 0 < r - sr) (h1 : r - sr = st - t)
    (h2 : r - sr = b - sb) (hmid : st < sb) :
    containsPoint [(r, t), (r, b), (sr, sb), (sr, st)] (px, py) = true ↔
      px < r ∧ t ≤ py ∧ py < b ∧ r - px ≤ py - t ∧ sr ≤ px ∧ r - px ≤ b - py := by
  rw [containsPoint_quad _ _ _ _ _ (by simp; omega),
    isect_vertical_up (r, t) (r, b) _ _ rfl (by simp; omega),
    isect_diag_pos_down (r, b) (sr, sb) _ _ (by simp; omega) (by simp; omega),
    isect_vertical_down (sr, sb) (sr, st) _ _ rfl (by simp; omega),
    isect_diag_neg_down (sr, st) (r, t) _ _ (by simp; omega) (by simp; omega)]
  simp only
  split_ifs <;> omega

/-- The top band `[L.topLeft, L.topRight, S.topRight, S.topLeft]`. -/
theorem top_contains (l t r sl st sr px py : Int) (ha : 0 < st - t) (h1 : sl - l = st - t)
    (h2 : r - sr = st - t) (hw : sl ≤ sr) :
    containsPoint [(l, t), (r, t), (sr, st), (sl, st)] (px, py) = true ↔
      t ≤ py ∧ py < st ∧ py - t ≤ px - l ∧ py - t < r - px := by
  rw [containsPoint_quad _ _ _ _ _ (by simp; omega),
    isect_horizontal (l, t) (r, t) _ _ rfl,
    isect_diag_neg_up (r, t) (sr, st) _ _ (by simp; omega) (by simp; omega),
    isect_horizontal (sr, st) (sl, st) _ _ rfl,
    isect_diag_pos_down (sl, st) (l, t) _ _ (by simp; omega) (by simp; omega)]
  simp only
  split_ifs <;> omega

/-- The bottom band `[L.bottomRight, L.bottomLeft, S.bottomLeft, S.bottomRight]`. -/
theorem bottom_contains (l r b sl sr sb px py : Int) (ha : 0 < b - sb) (h1 : sl - l = b - sb)
    (h2 : r - sr = b - sb) (hw : sl ≤ sr) :
    containsPoint [(r, b), (l, b), (sl, sb), (sr, sb)] (px, py) = true ↔
      sb ≤ py ∧ py < b ∧ b - py ≤ px - l ∧ b - py < r - px := by
  rw [containsPoint_quad _ _ _ _ _ (by simp; omega),
    isect_horizontal (r, b) (l, b) _ _ rfl,
    isect_diag_neg_down (l, b) (sl, sb) _ _ (by simp; omega) (by simp; omega),
    isect_horizontal (sl, sb) (sr, sb) _ _ rfl,
    isect_diag_pos_up (sr, sb) (r, b) _ _ (by simp; omega) (by simp; omega)]
  simp only
  split_ifs <;> omega

/-- The center `[S.topLeft, S.topRight, S.bottomRight, S.bottomLeft]`: the small
rectangle without its right column and its bottom row. -/
theorem center_contains (sl st sr sb px py : Int) (hw : sl < sr) (hh : st < sb) :
    containsPoint [(sl, st), (sr, st), (sr, sb), (sl, sb)] (px, py) = true ↔
      sl ≤ px ∧ px < sr ∧ st ≤ py ∧ py < sb := by
  rw [containsPoint_quad _ _ _ _ _ (by simp; omega),
    isect_horizontal (sl, st) (sr, st) _ _ rfl,
    isect_vertical_up (sr, st) (sr, sb) _ _ rfl (by simp; omega),
    isect_horizontal (sr, sb) (sl, sb) _ _ rfl,
    isect_vertical_down (sl, sb) (sl, st) _ _ rfl (by simp; omega)]
  simp only
  split_ifs <;> omega

theorem sizeOffset_eq (W H : Int) (hW : 0 ≤ W) (hH : 0 ≤ H) :
    (if W < H then W.tdiv 10 else H.tdiv 10) = min W H / 10 := by
  split
  · rw [Int.tdiv_eq_ediv hW (by decide), min_eq_left (by omega)]
  · rw [Int.tdiv_eq_ediv hH (by decide), min_eq_right (by omega)]

/-! ### Drop zones -/

/-- The polygons of `getDropLocations` are the `zonePolygons` of the widget. -/
theorem getDropLocations_eq (g : Screen) (widget : WidgetGeometry)
    (hW : 0 ≤ widget.width) (hH : 0 ≤ widget.height) :
    getDropLocations g widget =
      zonePolygons (g.mapFromGlobal widget.globalPos).1 (g.mapFromGlobal widget.globalPos).2
        widget.width widget.height (margin widget) := by
  simp only [getDropLocations, sizeOffset_eq _ _ hW hH, QRect.ofSize, QRect.topLeft,
    QRect.bottomLeft, QRect.topRight, QRect.bottomRight, zonePolygons, margin]

/-- Which points the five polygons contain, for a widget wider and higher than 20 at
`(X, Y)` with margin `m`; `u` and `v` below are the offsets of the point from `(X, Y)`. -/
theorem zones_contain (X Y W H m px py : Int) (hm : 2 ≤ m) (hW : 10 * m ≤ W)
    (hH : 10 * m ≤ H) :
    (containsPoint [(X + 1, Y + 1), (X + 1, Y + 1 + (H - 2) - 1),
        (X + m, Y + m + (H - 2 * m) - 1), (X + m, Y + m)] (px, py) = true ↔
      X + 1 ≤ px ∧ px < X + m ∧ px - X < py - Y ∧ px - X + (py - Y) < H - 1) ∧
    (containsPoint [(X + 1 + (W - 2) - 1, Y + 1), (X + 1 + (W - 2) - 1, Y + 1 + (H - 2) - 1),
        (X + m + (W - 2 * m) - 1, Y + m + (H - 2 * m) - 1),
        (X + m + (W - 2 * m) - 1, Y + m)] (px, py) = true ↔
      X + W - m - 1 ≤ px ∧ px < X + W - 2 ∧ W - 1 ≤ px - X + (py - Y) ∧
        py - Y ≤ px - X + (H - W)) ∧
    (containsPoint [(X + 1, Y + 1), (X + 1 + (W - 2) - 1, Y + 1),
        (X + m + (W - 2 * m) - 1, Y + m), (X + m, Y + m)] (px, py) = true ↔
      Y + 1 ≤ py ∧ py < Y + m ∧ py - Y ≤ px - X ∧ px - X + (py - Y) < W - 1) ∧
    (containsPoint [(X + 1 + (W - 2) - 1, Y + 1 + (H - 2) - 1), (X + 1, Y + 1 + (H - 2) - 1),
        (X + m, Y + m + (H - 2 * m) - 1),
        (X + m + (W - 2 * m) - 1, Y + m + (H - 2 * m) - 1)] (px, py) = true ↔
      Y + H - m - 1 ≤ py ∧ py < Y + H - 2 ∧ H - 1 ≤ px - X + (py - Y) ∧
        px - X + (H - W) < py - Y) ∧
    (containsPoint [(X + m, Y + m), (X + m + (W - 2 * m) - 1, Y + m),
        (X + m + (W - 2 * m) - 1, Y + m + (H - 2 * m) - 1),
        (X + m, Y + m + (H - 2 * m) - 1)] (px, py) = true ↔
      X + m ≤ px ∧ px < X + W - m - 1 ∧ Y + m ≤ py ∧ py < Y + H - m - 1) := by
  refine ⟨?_, ?_, ?_, ?_, ?_⟩
  · rw [left_contains _ _ _ _ _ _ _ _ (by omega) (by omega) (by omega) (by omega)]
    omega
  · rw [right_contains _ _ _ _ _ _ _ _ (by omega) (by omega) (by omega) (by omega)]
    omega
  · rw [top_contains _ _ _ _ _ _ _ _ (by omega) (by omega) (by omega) (by omega)]
    omega
  · rw [bottom_contains _ _ _ _ _ _ _ _ (by omega) (by omega) (by omega) (by omega)]
    omega
  · rw [center_contains _ _ _ _ _ _ (by omega) (by omega)]
    omega

theorem margin_facts (widget : WidgetGeometry) (hW : 20 < widget.width)
    (hH : 20 < widget.height) :
    2 ≤ margin widget ∧ 10 * margin widget ≤ widget.width ∧
      10 * margin widget ≤ widget.height := by
  unfold margin
  omega

/-- A position that `firstContaining` does not classify as none lies in a polygon. -/
theorem exists_of_firstContaining (pos : Int × Int) :
    ∀ (polygons : List (List (Int × Int))) (idx : Nat),
      firstContaining pos polygons idx ≠ CM_WINDROP_NONE →
      ∃ polygon ∈ polygons, containsPoint polygon pos = true := by
  intro polygons
  induction polygons with
  | nil => intro idx h; simp [firstContaining] at h
  | cons polygon rest ih =>
    intro idx h
    by_cases hc : containsPoint polygon pos = true
    · exact ⟨polygon, List.mem_cons_self _ _, hc⟩
    · simp only [firstContaining, if_neg hc] at h
      obtain ⟨q, hq, hq2⟩ := ih (idx + 1) h
      exact ⟨q, List.mem_cons_of_mem _ hq, hq2⟩

/-- Every point of the widget rectangle outside its first row and column and its last
two rows and columns is classified. -/
theorem zonePolygons_cover (X Y W H m px py : Int) (hm : 2 ≤ m) (hW : 10 * m ≤ W)
    (hH : 10 * m ≤ H) (hx1 : X < px) (hx2 : px < X + W - 2) (hy1 : Y < py)
    (hy2 : py < Y + H - 2) :
    firstContaining (px, py) (zonePolygons X Y W H m) 0 ≠ CM_WINDROP_NONE := by
  obtain ⟨hl, hr, ht, hb, hc⟩ := zones_contain X Y W H m px py hm hW hH
  simp only [zonePolygons, firstContaining, locationOfIndex]
  split_ifs with h1 h2 h3 h4 h5
  · decide
  · decide
  · decide
  · decide
  · decide
  · exfalso
    rw [hl] at h1
    rw [hr] at h2
    rw [ht] at h3
    rw [hb] at h4
    rw [hc] at h5
    omega

/-- Every point of the inset rectangle outside its right column and bottom row lies in
the center polygon only. -/
theorem zonePolygons_center (X Y W H m px py : Int) (hm : 2 ≤ m) (hW : 10 * m ≤ W)
    (hH : 10 * m ≤ H) (hx1 : X + m ≤ px) (hx2 : px < X + W - m - 1) (hy1 : Y + m ≤ py)
    (hy2 : py < Y + H - m - 1) :
    (zonePolygons X Y W H m).map (fun polygon => containsPoint polygon (px, py)) =
        [false, false, false, false, true] ∧
      firstContaining (px, py) (zonePolygons X Y W H m) 0 = CM_WINDROP_CENTER := by
  obtain ⟨hl, hr, ht, hb, hc⟩ := zones_contain X Y W H m px py hm hW hH
  have h1 : containsPoint _ (px, py) = false :=
    Bool.eq_false_iff.mpr (fun h => by rw [hl] at h; omega)
  have h2 : containsPoint _ (px, py) = false :=
    Bool.eq_false_iff.mpr (fun h => by rw [hr] at h; omega)
  have h3 : containsPoint _ (px, py) = false :=
    Bool.eq_false_iff.mpr (fun h => by rw [ht] at h; omega)
  have h4 : containsPoint _ (px, py) = false :=
    Bool.eq_false_iff.mpr (fun h => by rw [hb] at h; omega)
  have h5 : containsPoint _ (px, py) = true := hc.mpr (by omega)
  simp only [zonePolygons, firstContaining, locationOfIndex, List.map, h1, h2, h3, h4, h5]
  simp

/-- Counterexample to C12 as stated: for a widget of 100 by 100 at the origin, the point
`(0, 0)` is contained in the rectangle of the widget, lies in none of the five polygons
and is classified as `CM_WINDROP_NONE`. -/
theorem zone_coverage_counterexample :
    (20 : Int) < (squareScreen.contentWidget 1).width ∧
      (20 : Int) < (squareScreen.contentWidget 1).height ∧
      (targetRect squareScreen (squareScreen.contentWidget 1)).contains
        (squareScreen.mapFromGlobal (0, 0)) = true ∧
      (getDropLocations squareScreen (squareScreen.contentWidget 1)).map
        (fun polygon => containsPoint polygon (squareScreen.mapFromGlobal (0, 0))) =
          [false, false, false, false, false] ∧
      getDropLocationAtPosition squareScreen (squareScreen.contentWidget 1) (0, 0) =
        CM_WINDROP_NONE := by
  decide

/-- C12 as amended (zone coverage): for a widget wider and higher than 20, every point of
its rectangle that is neither in the first row or column nor in the last two rows or
columns lies in at least one of the five polygons of `getDropLocations`, so
`getDropLocationAtPosition` does not return `CM_WINDROP_NONE` for it. -/
theorem zone_coverage (g : Screen) (widget : WidgetGeometry) (globalPos : Int × Int)
    (hW : 20 < widget.width) (hH : 20 < widget.height)
    (hx1 : (targetRect g widget).x1 < (g.mapFromGlobal globalPos).1)
    (hx2 : (g.mapFromGlobal globalPos).1 < (targetRect g widget).x2 - 1)
    (hy1 : (targetRect g widget).y1 < (g.mapFromGlobal globalPos).2)
    (hy2 : (g.mapFromGlobal globalPos).2 < (targetRect g widget).y2 - 1) :
    (∃ polygon ∈ getDropLocations g widget,
        containsPoint polygon (g.mapFromGlobal globalPos) = true) ∧
      getDropLocationAtPosition g widget globalPos ≠ CM_WINDROP_NONE := by
  obtain ⟨hm, hmW, hmH⟩ := margin_facts widget hW hH
  simp only [targetRect, QRect.ofSize] at hx1 hx2 hy1 hy2
  have hne : getDropLocationAtPosition g widget globalPos ≠ CM_WINDROP_NONE := by
    unfold getDropLocationAtPosition
    rw [getDropLocations_eq g widget (by omega) (by omega),
      ← Prod.mk.eta (p := g.mapFromGlobal globalPos)]
    exact zonePolygons_cover _ _ _ _ _ _ _ hm hmW hmH (by omega) (by omega) (by omega)
      (by omega)
  exact ⟨exists_of_firstContaining _ _ 0 hne, hne⟩

/-- Witness for C12 as amended: the point `(1, 1)` of a widget of 100 by 100. -/
theorem zone_coverage_witness :
    (20 : Int) < (squareScreen.contentWidget 1).width ∧
      (20 : Int) < (squareScreen.contentWidget 1).height ∧
      (targetRect squareScreen (squareScreen.contentWidget 1)).x1 <
        (squareScreen.mapFromGlobal (1, 1)).1 ∧
      (squareScreen.mapFromGlobal (1, 1)).1 <
        (targetRect squareScreen (squareScreen.contentWidget 1)).x2 - 1 ∧
      (targetRect squareScreen (squareScreen.contentWidget 1)).y1 <
        (squareScreen.mapFromGlobal (1, 1)).2 ∧
      (squareScreen.mapFromGlobal (1, 1)).2 <
        (targetRect squareScreen (squareScreen.contentWidget 1)).y2 - 1 ∧
      ((∃ polygon ∈ getDropLocations squareScreen (squareScreen.contentWidget 1),
          containsPoint polygon (squareScreen.mapFromGlobal (1, 1)) = true) ∧
        getDropLocationAtPosition squareScreen (squareScreen.contentWidget 1) (1, 1) ≠
          CM_WINDROP_NONE) :=
  ⟨by decide, by decide, by decide, by decide, by decide, by decide,
    zone_coverage squareScreen (squareScreen.contentWidget 1) (1, 1) (by decide) (by decide)
      (by decide) (by decide) (by decide) (by decide)⟩

/-- C13 (center zone): for a widget wider and higher than 20, with the margin
`min(width, height) / 10` of integer arithmetic, every point of the rectangle shrunk by
the margin on all four sides other than its right column and its bottom row, so in
particular every point strictly inside it, lies in the center polygon and in none of the
polygons left, right, top, bottom, and `getDropLocationAtPosition` classifies it as
`CM_WINDROP_CENTER`. -/
theorem center_zone (g : Screen) (widget : WidgetGeometry) (globalPos : Int × Int)
    (hW : 20 < widget.width) (hH : 20 < widget.height)
    (hx1 : (insetRect g widget).x1 ≤ (g.mapFromGlobal globalPos).1)
    (hx2 : (g.mapFromGlobal globalPos).1 < (insetRect g widget).x2)
    (hy1 : (insetRect g widget).y1 ≤ (g.mapFromGlobal globalPos).2)
    (hy2 : (g.mapFromGlobal globalPos).2 < (insetRect g widget).y2) :
    (getDropLocations g widget).map
        (fun polygon => containsPoint polygon (g.mapFromGlobal globalPos)) =
        [false, false, false, false, true] ∧
      getDropLocationAtPosition g widget globalPos = CM_WINDROP_CENTER := by
  obtain ⟨hm, hmW, hmH⟩ := margin_facts widget hW hH
  simp only [insetRect, QRect.ofSize] at hx1 hx2 hy1 hy2
  unfold getDropLocationAtPosition
  rw [getDropLocations_eq g widget (by omega) (by omega),
    ← Prod.mk.eta (p := g.mapFromGlobal globalPos)]
  exact zonePolygons_center _ _ _ _ _ _ _ hm hmW hmH (by omega) (by omega) (by omega)
    (by omega)

/-- Witness for C13: the point `(50, 50)` of a widget of 100 by 100, whose margin is 10
and whose inset rectangle spans 10 to 89 in both directions. -/
theorem center_zone_witness :
    (20 : Int) < (squareScreen.contentWidget 1).width ∧
      (20 : Int) < (squareScreen.contentWidget 1).height ∧
      (insetRect squareScreen (squareScreen.contentWidget 1)).x1 ≤
        (squareScreen.mapFromGlobal (50, 50)).1 ∧
      (squareScreen.mapFromGlobal (50, 50)).1 <
        (insetRect squareScreen (squareScreen.contentWidget 1)).x2 ∧
      (insetRect squareScreen (squareScreen.contentWidget 1)).y1 ≤
        (squareScreen.mapFromGlobal (50, 50)).2 ∧
      (squareScreen.mapFromGlobal (50, 50)).2 <
        (insetRect squareScreen (squareScreen.contentWidget 1)).y2 ∧
      ((getDropLocations squareScreen (squareScreen.contentWidget 1)).map
          (fun polygon => containsPoint polygon (squareScreen.mapFromGlobal (50, 50))) =
          [false, false, false, false, true] ∧
        getDropLocationAtPosition squareScreen (squareScreen.contentWidget 1) (50, 50) =
          CM_WINDROP_CENTER) :=
  ⟨by decide, by decide, by decide, by decide, by decide, by decide,
    center_zone squareScreen (squareScreen.contentWidget 1) (50, 50) (by decide) (by decide)
      (by decide) (by decide) (by decide) (by decide)⟩
/-! ### The drag session -/

theorem trackWindow_same {s : WindowDockManager} {w : Nat} (h : s.mLastDraggedWindow = some w)
    (p : Int × Int) : trackWindow s w p = s := by
  simp [trackWindow, h]

theorem trackWindow_other {s : WindowDockManager} {w : Nat} (h : s.mLastDraggedWindow ≠ some w)
    (p : Int × Int) :
    trackWindow s w p = { s with mLastDragPosition := p, mLastDraggedWindow := some w } := by
  simp [trackWindow, h]

theorem trackWindow_tracked (s : WindowDockManager) (w : Nat) (p : Int × Int) :
    (trackWindow s w p).mLastDraggedWindow = some w := by
  unfold trackWindow
  split
  · rfl
  · next h => simpa using h

theorem dockWindow_session (s : WindowDockManager) (t : Nat) (a : Option Nat)
    (z : WindowDragDropLocation) :
    (dockWindow s t a z).2.mLastDraggedWindow = s.mLastDraggedWindow ∧
      (dockWindow s t a z).2.mLastDragPosition = s.mLastDragPosition := by
  unfold dockWindow
  split
  · exact ⟨rfl, rfl⟩
  · split
    · exact ⟨rfl, rfl⟩
    · split
      · exact ⟨rfl, rfl⟩
      · split <;> exact ⟨rfl, rfl⟩

theorem undockWindow_session (s : WindowDockManager) (w : Nat) :
    (undockWindow s w).2.mLastDraggedWindow = s.mLastDraggedWindow ∧
      (undockWindow s w).2.mLastDragPosition = s.mLastDragPosition := by
  unfold undockWindow
  split
  · exact ⟨rfl, rfl⟩
  · simp only
    split <;> exact ⟨rfl, rfl⟩

theorem windowIsDocked_windowUndock (w : Nat) (flags : List Nat) :
    decide (w ∈ windowUndock w flags) = false := by
  simp [windowUndock]

/-! ### The arithmetic of `int` -/

theorem wrapInt_of_fits {v : Int} (h1 : -2147483648 ≤ v) (h2 : v ≤ 2147483647) :
    wrapInt v = v := by
  unfold wrapInt
  omega

theorem pointMinus_self (o : Int × Int) : pointMinus o o = (0, 0) := by
  simp [pointMinus, wrapInt]

/-- In the range in which the Manhattan distance of two points is a value of type `int`,
the `manhattanLength` that the code takes of their difference is that distance. -/
theorem manhattanLength_pointMinus {o p : Int × Int} (h : distanceFits o p) :
    manhattanLength (pointMinus o p) = manhattanDistance o p := by
  obtain ⟨⟨⟨ho1, ho2⟩, ho3, ho4⟩, ⟨⟨hp1, hp2⟩, hp3, hp4⟩, hd⟩ := h
  unfold manhattanDistance at hd
  have hx : -2147483647 ≤ o.1 - p.1 ∧ o.1 - p.1 ≤ 2147483647 := by
    split_ifs at hd <;> omega
  have hy : -2147483647 ≤ o.2 - p.2 ∧ o.2 - p.2 ≤ 2147483647 := by
    split_ifs at hd <;> omega
  have e1 : wrapInt (o.1 - p.1) = o.1 - p.1 := wrapInt_of_fits (by omega) hx.2
  have e2 : wrapInt (o.2 - p.2) = o.2 - p.2 := wrapInt_of_fits (by omega) hy.2
  have a1 : qAbs (o.1 - p.1) = if o.1 - p.1 ≥ 0 then o.1 - p.1 else -(o.1 - p.1) := by
    unfold qAbs
    split
    · rfl
    · exact wrapInt_of_fits (by omega) (by omega)
  have a2 : qAbs (o.2 - p.2) = if o.2 - p.2 ≥ 0 then o.2 - p.2 else -(o.2 - p.2) := by
    unfold qAbs
    split
    · rfl
    · exact wrapInt_of_fits (by omega) (by omega)
  unfold manhattanLength pointMinus manhattanDistance
  simp only [e1, e2, a1, a2]
  apply wrapInt_of_fits
  · split_ifs <;> omega
  · exact hd

/-- The sum of `manhattanLength` wraps: for the difference of `(1500000000, 1500000000)`
and `(0, 0)` it is `3000000000 - 2^32`. -/
theorem manhattanLength_wraps :
    manhattanLength (pointMinus (1500000000, 1500000000) (0, 0)) = -1294967296 ∧
      manhattanDistance (1500000000, 1500000000) (0, 0) = 3000000000 ∧
      ¬ distanceFits (1500000000, 1500000000) (0, 0) := by
  decide

/-- Outside the range of `distanceFits` the threshold of `windowDragged` is taken on the
wrapped sum: with the origin `(1500000000, 1500000000)` recorded for the docked window B
in place of the origin of `dragArmed`, a pointer move to `(0, 0)` leaves B docked. -/
theorem windowDragged_wraps :
    (windowDragged
      { dragArmed with mLastDragPosition := (1500000000, 1500000000) } 2 (0, 0)).2.isDocked
        2 = true := by
  decide

/-! ### Pointer events case by case -/

theorem windowDragged_docked_far {s : WindowDockManager} {w : Nat} {p : Int × Int}
    (hsess : s.mLastDraggedWindow = some w) (hflag : windowIsDocked s w = true)
    (hfar : manhattanLength (pointMinus s.mLastDragPosition p) > 4) :
    windowDragged s w p = undockWindow s w := by
  simp only [windowDragged, trackWindow_same hsess, hflag, if_pos hfar]
  simp

theorem windowDragged_docked_near {s : WindowDockManager} {w : Nat} {p : Int × Int}
    (hsess : s.mLastDraggedWindow = some w) (hflag : windowIsDocked s w = true)
    (hnear : manhattanLength (pointMinus s.mLastDragPosition p) ≤ 4) :
    windowDragged s w p = (Outcome.returned, s) := by
  simp only [windowDragged, trackWindow_same hsess, hflag, if_neg (not_lt.mpr hnear)]
  simp

theorem windowDragged_floating {s : WindowDockManager} {w : Nat}
    (hsess : s.mLastDraggedWindow = some w) (hflag : windowIsDocked s w = false)
    (p : Int × Int) : windowDragged s w p = (Outcome.returned, s) := by
  simp [windowDragged, trackWindow_same hsess, hflag]

theorem windowDragged_first {s : WindowDockManager} {w : Nat}
    (hnew : s.mLastDraggedWindow ≠ some w) (o : Int × Int) :
    windowDragged s w o = (Outcome.returned, trackWindow s w o) := by
  have hpos : (trackWindow s w o).mLastDragPosition = o := by
    rw [trackWindow_other hnew]
  unfold windowDragged
  simp only [hpos, pointMinus_self]
  split
  · rfl
  · rw [if_neg (by decide)]

theorem undockWindow_of_docked {s : WindowDockManager} (h2 : I2 s) {w : Nat}
    (hreg : s.isDocked w = true) :
    (undockWindow s w).1 = Outcome.returned ∧ (undockWindow s w).2.isDocked w = false ∧
      windowIsDocked (undockWindow s w).2 w = false := by
  obtain ⟨q, i, hl⟩ := located_of_I2 h2 hreg
  rw [undockWindow_located hl hreg]
  refine ⟨rfl, ?_, ?_⟩
  · simp only [WindowDockManager.isDocked]
    exact lookup_mapErase w _
  · simp only [windowIsDocked]
    exact windowIsDocked_windowUndock w _

theorem windowReleased_near {g : Screen} {s : WindowDockManager} {w : Nat} {pos : Int × Int}
    (hsess : s.mLastDraggedWindow = some w)
    (hnear : manhattanLength (pointMinus s.mLastDragPosition pos) ≤ 4) :
    windowReleased g s w pos = (Outcome.returned, s) := by
  simp only [windowReleased, trackWindow_same hsess]
  simp [not_lt.mpr hnear]

theorem windowReleased_over {g : Screen} {s : WindowDockManager} {w : Nat} {pos : Int × Int}
    (hsess : s.mLastDraggedWindow = some w) (hflag : windowIsDocked s w = false)
    (hfar : manhattanLength (pointMinus s.mLastDragPosition pos) > 4) {B : Nat}
    (hB : getDockedWindowAtPosition g s pos = some B) :
    windowReleased g s w pos =
      dockWindow s w (some B) (getDropLocationAtPosition g (g.contentWidget B) pos) := by
  simp only [windowReleased, trackWindow_same hsess, hflag, hB]
  simp [hfar]

theorem pointerMoves_floating {s : WindowDockManager} {w : Nat}
    (hsess : s.mLastDraggedWindow = some w) (hflag : windowIsDocked s w = false)
    (moves : List (Int × Int)) : pointerMoves s w moves = s := by
  induction moves with
  | nil => rfl
  | cons p rest ih =>
    simp only [pointerMoves, windowDragged_floating hsess hflag p]
    exact ih

/-- The pointer moves of a session on a docked window, the origin recorded: the window
is undocked once, at the first move farther than 4 from the origin; the moves before it
and after it leave the manager as it is. -/
theorem pointerMoves_docked {s : WindowDockManager} (h2 : I2 s) {w : Nat}
    (hsess : s.mLastDraggedWindow = some w) (hflag : windowIsDocked s w = true)
    (hreg : s.isDocked w = true) (moves : List (Int × Int))
    (hfits : ∀ p ∈ moves, distanceFits s.mLastDragPosition p)
    (hfar : ∃ p ∈ moves, manhattanDistance s.mLastDragPosition p > 4) :
    pointerMoves s w moves = (undockWindow s w).2 := by
  induction moves with
  | nil =>
    obtain ⟨p, hp, _⟩ := hfar
    simp at hp
  | cons p rest ih =>
    have hp := manhattanLength_pointMinus (hfits p (List.mem_cons_self _ _))
    by_cases hd : manhattanDistance s.mLastDragPosition p > 4
    · simp only [pointerMoves, windowDragged_docked_far hsess hflag (hp ▸ hd)]
      exact pointerMoves_floating ((undockWindow_session s w).1.trans hsess)
        (undockWindow_of_docked h2 hreg).2.2 rest
    · simp only [pointerMoves,
        windowDragged_docked_near hsess hflag (hp ▸ not_lt.mp hd)]
      apply ih (fun q hq => hfits q (List.mem_cons_of_mem _ hq))
      obtain ⟨q, hq, hqfar⟩ := hfar
      rcases List.mem_cons.mp hq with rfl | hq
      · exact absurd hqfar hd
      · exact ⟨q, hq, hqfar⟩

theorem I2_trackWindow {s : WindowDockManager} (h2 : I2 s) (w : Nat) (o : Int × Int) :
    I2 (trackWindow s w o) := by
  unfold trackWindow
  split
  · exact h2
  · exact h2

/-- Counterexample to C14 as stated: the first pointer event on the docked window B of
scenario 2, at `(0, 50)`, records the origin and gives `dragArmed`; the move to
`(10, 50)`, at Manhattan distance 10 from the origin, undocks B and gives
`dragFloating`; the release at `(3, 50)`, which lies in the left zone of the docked
window A, is at distance 3 from the origin and leaves the manager unchanged: B is not
docked. -/
theorem release_tracks_session_counterexample :
    scenario2.mLastDraggedWindow = none ∧
      windowDragged scenario2 2 (0, 50) = (Outcome.returned, dragArmed) ∧
      manhattanDistance dragArmed.mLastDragPosition (10, 50) > 4 ∧
      windowDragged dragArmed 2 (10, 50) = (Outcome.returned, dragFloating) ∧
      dragFloating.isDocked 2 = false ∧ windowIsDocked dragFloating 2 = false ∧
      getDockedWindowAtPosition squareScreen dragFloating (3, 50) = some 1 ∧
      getDropLocationAtPosition squareScreen (squareScreen.contentWidget 1) (3, 50) =
        CM_WINDROP_LEFT ∧
      manhattanDistance dragFloating.mLastDragPosition (3, 50) ≤ 4 ∧
      windowReleased squareScreen dragFloating 2 (3, 50) = (Outcome.returned, dragFloating) ∧
      (windowReleased squareScreen dragFloating 2 (3, 50)).2.isDocked 2 = false :=
  ⟨by decide, rfl, by decide, rfl, by decide, by decide, by decide, by decide, by decide,
    rfl, by decide⟩

/-- C14 as amended (the docking gesture is decided at the release).  A drag session of a
docked window `w` that begins by recording its origin `o` (before the first pointer
event `w` is not the tracked window), with pointer moves one of which is farther than
Manhattan distance 4 from `o`, all distances being values of type `int`: the moves
undock `w` once and leave it floating with the origin `o` still recorded.  A release at
a position within distance 4 of `o` then leaves the manager unchanged, so `w` stays
floating; a release farther than 4 from `o` over the docked window that
`getDockedWindowAtPosition` finds does what `dockWindow` does for that window and the
zone the position classifies to. -/
theorem release_tracks_session (g : Screen) (s : WindowDockManager) (h2 : I2 s) (w : Nat)
    (o : Int × Int) (moves : List (Int × Int)) (pos : Int × Int)
    (hnew : s.mLastDraggedWindow ≠ some w)
    (hflag : windowIsDocked s w = true) (hreg : s.isDocked w = true)
    (hmoves : ∀ p ∈ moves, distanceFits o p) (hpos : distanceFits o pos)
    (hfar : ∃ p ∈ moves, manhattanDistance o p > 4) :
    (windowDragged s w o).2.mLastDragPosition = o ∧
      pointerMoves (windowDragged s w o).2 w moves =
        (undockWindow (windowDragged s w o).2 w).2 ∧
      (pointerMoves (windowDragged s w o).2 w moves).isDocked w = false ∧
      windowIsDocked (pointerMoves (windowDragged s w o).2 w moves) w = false ∧
      (pointerMoves (windowDragged s w o).2 w moves).mLastDragPosition = o ∧
      (manhattanDistance o pos ≤ 4 →
        windowReleased g (pointerMoves (windowDragged s w o).2 w moves) w pos =
          (Outcome.returned, pointerMoves (windowDragged s w o).2 w moves)) ∧
      (manhattanDistance o pos > 4 →
        ∀ B, getDockedWindowAtPosition g (pointerMoves (windowDragged s w o).2 w moves) pos =
            some B →
          windowReleased g (pointerMoves (windowDragged s w o).2 w moves) w pos =
            dockWindow (pointerMoves (windowDragged s w o).2 w moves) w (some B)
              (getDropLocationAtPosition g (g.contentWidget B) pos)) := by
  have hfirst : (windowDragged s w o).2 = trackWindow s w o := by
    rw [windowDragged_first hnew]
  have ht : trackWindow s w o =
      { s with mLastDragPosition := o, mLastDraggedWindow := some w } :=
    trackWindow_other hnew o
  have hsess1 : (trackWindow s w o).mLastDraggedWindow = some w := trackWindow_tracked s w o
  have horig1 : (trackWindow s w o).mLastDragPosition = o := by rw [ht]
  have hflag1 : windowIsDocked (trackWindow s w o) w = true := by
    rw [ht]
    exact hflag
  have hreg1 : (trackWindow s w o).isDocked w = true := by
    rw [ht]
    exact hreg
  have h21 := I2_trackWindow h2 w o
  have hmv : pointerMoves (trackWindow s w o) w moves = (undockWindow (trackWindow s w o) w).2 :=
    pointerMoves_docked h21 hsess1 hflag1 hreg1 moves (by rw [horig1]; exact hmoves)
      (by rw [horig1]; exact hfar)
  obtain ⟨_, hundock, hfloat⟩ := undockWindow_of_docked h21 hreg1
  have hsess2 := (undockWindow_session (trackWindow s w o) w).1.trans hsess1
  have horig2 := (undockWindow_session (trackWindow s w o) w).2.trans horig1
  rw [hfirst, hmv]
  refine ⟨horig1, rfl, hundock, hfloat, horig2, ?_, ?_⟩
  · intro hnear
    apply windowReleased_near hsess2
    rw [horig2, manhattanLength_pointMinus hpos]
    exact hnear
  · intro hfar2 B hB
    apply windowReleased_over hsess2 hfloat _ hB
    rw [horig2, manhattanLength_pointMinus hpos]
    exact hfar2

/-- Witness for C14 as amended: the session of window B in scenario 2 with origin
`(0, 50)` and the moves to `(2, 50)` and `(10, 50)`, released at `(3, 50)`. -/
theorem release_tracks_session_witness :
    I2 scenario2 ∧ scenario2.mLastDraggedWindow ≠ some 2 ∧
      windowIsDocked scenario2 2 = true ∧ scenario2.isDocked 2 = true ∧
      (∀ p ∈ [((2, 50) : Int × Int), (10, 50)], distanceFits (0, 50) p) ∧
      distanceFits (0, 50) (3, 50) ∧
      (∃ p ∈ [((2, 50) : Int × Int), (10, 50)], manhattanDistance (0, 50) p > 4) ∧
      pointerMoves (windowDragged scenario2 2 (0, 50)).2 2 [(2, 50), (10, 50)] =
        dragFloating ∧
      ((windowDragged scenario2 2 (0, 50)).2.mLastDragPosition = (0, 50) ∧
        pointerMoves (windowDragged scenario2 2 (0, 50)).2 2 [(2, 50), (10, 50)] =
          (undockWindow (windowDragged scenario2 2 (0, 50)).2 2).2 ∧
        (pointerMoves (windowDragged scenario2 2 (0, 50)).2 2
          [(2, 50), (10, 50)]).isDocked 2 = false ∧
        windowIsDocked (pointerMoves (windowDragged scenario2 2 (0, 50)).2 2
          [(2, 50), (10, 50)]) 2 = false ∧
        (pointerMoves (windowDragged scenario2 2 (0, 50)).2 2
          [(2, 50), (10, 50)]).mLastDragPosition = (0, 50) ∧
        (manhattanDistance (0, 50) (3, 50) ≤ 4 →
          windowReleased squareScreen
              (pointerMoves (windowDragged scenario2 2 (0, 50)).2 2 [(2, 50), (10, 50)]) 2
              (3, 50) =
            (Outcome.returned,
              pointerMoves (windowDragged scenario2 2 (0, 50)).2 2 [(2, 50), (10, 50)])) ∧
        (manhattanDistance (0, 50) (3, 50) > 4 →
          ∀ B, getDockedWindowAtPosition squareScreen
              (pointerMoves (windowDragged scenario2 2 (0, 50)).2 2 [(2, 50), (10, 50)])
              (3, 50) = some B →
            windowReleased squareScreen
                (pointerMoves (windowDragged scenario2 2 (0, 50)).2 2 [(2, 50), (10, 50)]) 2
                (3, 50) =
              dockWindow
                (pointerMoves (windowDragged scenario2 2 (0, 50)).2 2 [(2, 50), (10, 50)]) 2
                (some B)
                (getDropLocationAtPosition squareScreen (squareScreen.contentWidget B)
                  (3, 50)))) :=
  ⟨by decide, by decide, by decide, by decide, by decide, by decide, by decide, rfl,
    release_tracks_session squareScreen scenario2 (by decide) 2 (0, 50) [(2, 50), (10, 50)]
      (3, 50) (by decide) (by decide) (by decide) (by decide) (by decide) (by decide)⟩

/-- C15 (the session is not reset by a release): the code at the failing input.  A click
on the docked window B of scenario 2 at `(0, 0)` (a release without a move) returns with
B as the tracked window and `(0, 0)` as the recorded origin, so the session is not idle.
The first pointer event of the next gesture on B, at `(50, 50)`, does not record its
position: the origin stays `(0, 0)`, the Manhattan distance from it is 100, and B is
undocked at that first event, without any movement inside the gesture, where the same
event in scenario 2 itself records `(50, 50)` and leaves B docked.  In the same way the
window B of `dragFloating`, which a gesture from `(0, 50)` through `(10, 50)` undocked
and whose release at `(3, 50)` left it floating, is docked by a later press and release
at `(5, 50)` without a move, measured from the origin `(0, 50)` of the gesture before. -/
theorem session_not_reset_by_release :
    scenario2.mLastDraggedWindow = none ∧
      (windowReleased squareScreen scenario2 2 (0, 0)).2.mLastDraggedWindow = some 2 ∧
      (windowReleased squareScreen scenario2 2 (0, 0)).2.mLastDragPosition = (0, 0) ∧
      (windowReleased squareScreen scenario2 2 (0, 0)).2.isDocked 2 = true ∧
      (windowDragged (windowReleased squareScreen scenario2 2 (0, 0)).2 2
        (50, 50)).2.mLastDragPosition = (0, 0) ∧
      (windowDragged (windowReleased squareScreen scenario2 2 (0, 0)).2 2
        (50, 50)).2.mLastDragPosition ≠ (50, 50) ∧
      (windowDragged (windowReleased squareScreen scenario2 2 (0, 0)).2 2
        (50, 50)).2.isDocked 2 = false ∧
      (windowDragged scenario2 2 (50, 50)).2.mLastDragPosition = (50, 50) ∧
      (windowDragged scenario2 2 (50, 50)).2.isDocked 2 = true ∧
      pointerMoves (windowDragged scenario2 2 (0, 50)).2 2 [(10, 50)] = dragFloating ∧
      windowReleased squareScreen dragFloating 2 (3, 50) = (Outcome.returned, dragFloating) ∧
      (windowReleased squareScreen dragFloating 2 (5, 50)).2.mCentralSplitter =
        [Widget.window 2, Widget.window 1] ∧
      (windowReleased squareScreen dragFloating 2 (5, 50)).2.isDocked 2 = true :=
  ⟨by decide, by decide, by decide, by decide, by decide, by decide, by decide, by decide,
    by decide, rfl, rfl, rfl, by decide⟩

theorem windowReleased_session (g : Screen) (s : WindowDockManager) (w : Nat)
    (pos : Int × Int) :
    (windowReleased g s w pos).2.mLastDraggedWindow = some w ∧
      (windowReleased g s w pos).2.mLastDragPosition =
        (trackWindow s w pos).mLastDragPosition := by
  have ht := trackWindow_tracked s w pos
  unfold windowReleased
  simp only
  split
  · split
    · exact ⟨(dockWindow_session _ _ _ _).1.trans ht, (dockWindow_session _ _ _ _).2⟩
    · split
      · exact ⟨(dockWindow_session _ _ _ _).1.trans ht, (dockWindow_session _ _ _ _).2⟩
      · exact ⟨ht, rfl⟩
  · exact ⟨ht, rfl⟩

theorem windowDragged_session (s : WindowDockManager) (w : Nat) (pos : Int × Int) :
    (windowDragged s w pos).2.mLastDraggedWindow = some w ∧
      (windowDragged s w pos).2.mLastDragPosition =
        (trackWindow s w pos).mLastDragPosition := by
  have ht := trackWindow_tracked s w pos
  unfold windowDragged
  simp only
  split
  · exact ⟨ht, rfl⟩
  · split
    · exact ⟨(undockWindow_session _ _).1.trans ht, (undockWindow_session _ _).2⟩
    · exact ⟨ht, rfl⟩

end CamelotEditor
